import Mathlib

/-
Verification development for the Motec-Can firmware analysis tools.

The development shallowly embeds three Python modules:
  * `hc08_disasm.py`  — HC08 (MC68HC908GZ60) linear-sweep disassembler,
  * `analyze_pdm.py`  — independent linear analysis passes (subroutine scan,
                        I/O-access scan, RAM-usage scan, loop scan, strings),
  * `srec_to_bin.py`  — Motorola S-record loader and dense-image writer.

Conventions of the embedding:
  * Byte buffers are `List Nat`; Python's `data[i]` (which raises `IndexError`
    when out of bounds) is the optional index `l[i]?` in the `Option` monad, so a `none`
    result corresponds exactly to a thrown Python exception.  All scanning
    loops are embedded with an explicit fuel argument (the loops advance their
    cursor by at least one byte per iteration, so `length + 1` fuel always
    suffices; running out of fuel also yields `none`, and the in-bounds
    theorems below show `none` is never produced).
  * Python dicts keyed by address are association lists updated in insertion
    order (`dictInsert`); `defaultdict(int)` counters are represented by the
    list of counted occurrences, the counter value being `List.count`.
  * Python f-string operand rendering is reproduced on `String`
    (`pyHex`/`pyIntHex` model `"{:0wX}".format`); the surrounding display line
    (address column, raw-byte column, column padding) is not part of any
    claim and is dropped — each decoded record keeps its fields instead.
-/

/-- Uppercase hex digit character for a value below 16, as produced by
Python's `X` format code. -/
def hexDigit (n : Nat) : Char :=
  if n < 10 then Char.ofNat (48 + n) else Char.ofNat (55 + n)

/-- Most-significant-first hex digits of `n`; the first argument is fuel
(`n + 1` always suffices since a number has at most `n + 1` digits). -/
def hexDigitsAux : Nat → Nat → List Char
  | 0, _ => []
  | fuel + 1, n =>
    if n = 0 then [] else hexDigitsAux fuel (n / 16) ++ [hexDigit (n % 16)]

/-- Models Python `"{:0{width}X}".format(n)` for a nonnegative `n`:
uppercase hex, left-padded with zeros to `width`. -/
def pyHex (width n : Nat) : String :=
  let ds := hexDigitsAux (n + 1) n
  let ds := if ds = [] then ['0'] else ds
  String.mk (List.replicate (width - ds.length) '0' ++ ds)

/-- Models Python `"{:0{width}X}".format(i)` for an `int` that may be
negative: the sign is counted inside the zero-padded width. -/
def pyIntHex (width : Nat) (i : Int) : String :=
  if i < 0 then "-" ++ pyHex (width - 1) (-i).toNat else pyHex width i.toNat

/-- Models the idiom `if rel > 127: rel -= 256` applied to a displacement
byte: two's-complement signed interpretation. -/
def pySigned (b : Nat) : Int :=
  if 127 < b then (b : Int) - 256 else (b : Int)

/-- Reads `n` consecutive bytes starting at `pc`; `none` exactly when some
index is out of bounds. -/
def readBytes (data : List Nat) (pc : Nat) : Nat → Option (List Nat)
  | 0 => some []
  | n + 1 => do
    let b ← data[pc]?
    let rest ← readBytes data (pc + 1) n
    pure (b :: rest)

namespace Hc08

/-- Addressing modes of the HC08 opcode tables (the string tags of the
source, as a closed enumeration). -/
inductive AMode where
  | INH | IMM | DIR | EXT | IX | IX1 | IX2 | REL
  | DIR_REL | IMM_REL | IX_REL | IX1_REL
  | SP1 | SP2 | SP1_REL
deriving Repr, DecidableEq

/-- HC08 primary opcode table: opcode -> (mnemonic, addressing mode, size).
The bit-manipulation block 0x00–0x1F, generated by a loop in the source
(`BRSET{i}`/`BRCLR{i}`/`BSET{i}`/`BCLR{i}`), is spelled out. -/
def HC08_OPCODES : List (Nat × String × AMode × Nat) := [
  (0x00, "BRSET0", AMode.DIR_REL, 3), (0x01, "BRCLR0", AMode.DIR_REL, 3),
  (0x02, "BRSET1", AMode.DIR_REL, 3), (0x03, "BRCLR1", AMode.DIR_REL, 3),
  (0x04, "BRSET2", AMode.DIR_REL, 3), (0x05, "BRCLR2", AMode.DIR_REL, 3),
  (0x06, "BRSET3", AMode.DIR_REL, 3), (0x07, "BRCLR3", AMode.DIR_REL, 3),
  (0x08, "BRSET4", AMode.DIR_REL, 3), (0x09, "BRCLR4", AMode.DIR_REL, 3),
  (0x0A, "BRSET5", AMode.DIR_REL, 3), (0x0B, "BRCLR5", AMode.DIR_REL, 3),
  (0x0C, "BRSET6", AMode.DIR_REL, 3), (0x0D, "BRCLR6", AMode.DIR_REL, 3),
  (0x0E, "BRSET7", AMode.DIR_REL, 3), (0x0F, "BRCLR7", AMode.DIR_REL, 3),
  (0x10, "BSET0", AMode.DIR, 2), (0x11, "BCLR0", AMode.DIR, 2),
  (0x12, "BSET1", AMode.DIR, 2), (0x13, "BCLR1", AMode.DIR, 2),
  (0x14, "BSET2", AMode.DIR, 2), (0x15, "BCLR2", AMode.DIR, 2),
  (0x16, "BSET3", AMode.DIR, 2), (0x17, "BCLR3", AMode.DIR, 2),
  (0x18, "BSET4", AMode.DIR, 2), (0x19, "BCLR4", AMode.DIR, 2),
  (0x1A, "BSET5", AMode.DIR, 2), (0x1B, "BCLR5", AMode.DIR, 2),
  (0x1C, "BSET6", AMode.DIR, 2), (0x1D, "BCLR6", AMode.DIR, 2),
  (0x1E, "BSET7", AMode.DIR, 2), (0x1F, "BCLR7", AMode.DIR, 2),
  (0x20, "BRA", AMode.REL, 2), (0x21, "BRN", AMode.REL, 2),
  (0x22, "BHI", AMode.REL, 2), (0x23, "BLS", AMode.REL, 2),
  (0x24, "BCC", AMode.REL, 2), (0x25, "BCS", AMode.REL, 2),
  (0x26, "BNE", AMode.REL, 2), (0x27, "BEQ", AMode.REL, 2),
  (0x28, "BHCC", AMode.REL, 2), (0x29, "BHCS", AMode.REL, 2),
  (0x2A, "BPL", AMode.REL, 2), (0x2B, "BMI", AMode.REL, 2),
  (0x2C, "BMC", AMode.REL, 2), (0x2D, "BMS", AMode.REL, 2),
  (0x2E, "BIL", AMode.REL, 2), (0x2F, "BIH", AMode.REL, 2),
  (0x30, "NEG", AMode.DIR, 2), (0x33, "COM", AMode.DIR, 2),
  (0x34, "LSR", AMode.DIR, 2), (0x36, "ROR", AMode.DIR, 2),
  (0x37, "ASR", AMode.DIR, 2), (0x38, "LSL", AMode.DIR, 2),
  (0x39, "ROL", AMode.DIR, 2), (0x3A, "DEC", AMode.DIR, 2),
  (0x3C, "INC", AMode.DIR, 2), (0x3D, "TST", AMode.DIR, 2),
  (0x3F, "CLR", AMode.DIR, 2),
  (0x40, "NEGA", AMode.INH, 1), (0x41, "CBEQA", AMode.IMM_REL, 3),
  (0x42, "MUL", AMode.INH, 1), (0x43, "COMA", AMode.INH, 1),
  (0x44, "LSRA", AMode.INH, 1), (0x46, "RORA", AMode.INH, 1),
  (0x47, "ASRA", AMode.INH, 1), (0x48, "LSLA", AMode.INH, 1),
  (0x49, "ROLA", AMode.INH, 1), (0x4A, "DECA", AMode.INH, 1),
  (0x4B, "DBNZA", AMode.REL, 2), (0x4C, "INCA", AMode.INH, 1),
  (0x4D, "TSTA", AMode.INH, 1), (0x4F, "CLRA", AMode.INH, 1),
  (0x50, "NEGX", AMode.INH, 1), (0x51, "CBEQX", AMode.IMM_REL, 3),
  (0x52, "DIV", AMode.INH, 1), (0x53, "COMX", AMode.INH, 1),
  (0x54, "LSRX", AMode.INH, 1), (0x56, "RORX", AMode.INH, 1),
  (0x57, "ASRX", AMode.INH, 1), (0x58, "LSLX", AMode.INH, 1),
  (0x59, "ROLX", AMode.INH, 1), (0x5A, "DECX", AMode.INH, 1),
  (0x5B, "DBNZX", AMode.REL, 2), (0x5C, "INCX", AMode.INH, 1),
  (0x5D, "TSTX", AMode.INH, 1), (0x5F, "CLRX", AMode.INH, 1),
  (0x60, "NEG", AMode.IX, 1), (0x61, "CBEQ", AMode.IX_REL, 2),
  (0x63, "COM", AMode.IX, 1), (0x64, "LSR", AMode.IX, 1),
  (0x66, "ROR", AMode.IX, 1), (0x67, "ASR", AMode.IX, 1),
  (0x68, "LSL", AMode.IX, 1), (0x69, "ROL", AMode.IX, 1),
  (0x6A, "DEC", AMode.IX, 1), (0x6B, "DBNZ", AMode.IX_REL, 2),
  (0x6C, "INC", AMode.IX, 1), (0x6D, "TST", AMode.IX, 1),
  (0x6F, "CLR", AMode.IX, 1),
  (0x70, "NEG", AMode.IX1, 2), (0x71, "CBEQ", AMode.IX1_REL, 3),
  (0x73, "COM", AMode.IX1, 2), (0x74, "LSR", AMode.IX1, 2),
  (0x76, "ROR", AMode.IX1, 2), (0x77, "ASR", AMode.IX1, 2),
  (0x78, "LSL", AMode.IX1, 2), (0x79, "ROL", AMode.IX1, 2),
  (0x7A, "DEC", AMode.IX1, 2), (0x7B, "DBNZ", AMode.IX1_REL, 3),
  (0x7C, "INC", AMode.IX1, 2), (0x7D, "TST", AMode.IX1, 2),
  (0x7F, "CLR", AMode.IX1, 2),
  (0x80, "RTI", AMode.INH, 1), (0x81, "RTS", AMode.INH, 1),
  (0x83, "SWI", AMode.INH, 1), (0x84, "TAP", AMode.INH, 1),
  (0x85, "TPA", AMode.INH, 1), (0x86, "PULA", AMode.INH, 1),
  (0x87, "PSHA", AMode.INH, 1), (0x88, "PULX", AMode.INH, 1),
  (0x89, "PSHX", AMode.INH, 1), (0x8A, "PULH", AMode.INH, 1),
  (0x8B, "PSHH", AMode.INH, 1), (0x8C, "CLRH", AMode.INH, 1),
  (0x8E, "STOP", AMode.INH, 1), (0x8F, "WAIT", AMode.INH, 1),
  (0x90, "BGE", AMode.REL, 2), (0x91, "BLT", AMode.REL, 2),
  (0x92, "BGT", AMode.REL, 2), (0x93, "BLE", AMode.REL, 2),
  (0x94, "TXS", AMode.INH, 1), (0x95, "TSX", AMode.INH, 1),
  (0x97, "TAX", AMode.INH, 1), (0x98, "CLC", AMode.INH, 1),
  (0x99, "SEC", AMode.INH, 1), (0x9A, "CLI", AMode.INH, 1),
  (0x9B, "SEI", AMode.INH, 1), (0x9C, "RSP", AMode.INH, 1),
  (0x9D, "NOP", AMode.INH, 1), (0x9F, "TXA", AMode.INH, 1),
  (0xA0, "SUB", AMode.IMM, 2), (0xA1, "CMP", AMode.IMM, 2),
  (0xA2, "SBC", AMode.IMM, 2), (0xA3, "CPX", AMode.IMM, 2),
  (0xA4, "AND", AMode.IMM, 2), (0xA5, "BIT", AMode.IMM, 2),
  (0xA6, "LDA", AMode.IMM, 2), (0xA8, "EOR", AMode.IMM, 2),
  (0xA9, "ADC", AMode.IMM, 2), (0xAA, "ORA", AMode.IMM, 2),
  (0xAB, "ADD", AMode.IMM, 2), (0xAD, "BSR", AMode.REL, 2),
  (0xAE, "LDX", AMode.IMM, 2), (0xAF, "AIX", AMode.IMM, 2),
  (0xB0, "SUB", AMode.DIR, 2), (0xB1, "CMP", AMode.DIR, 2),
  (0xB2, "SBC", AMode.DIR, 2), (0xB3, "CPX", AMode.DIR, 2),
  (0xB4, "AND", AMode.DIR, 2), (0xB5, "BIT", AMode.DIR, 2),
  (0xB6, "LDA", AMode.DIR, 2), (0xB7, "STA", AMode.DIR, 2),
  (0xB8, "EOR", AMode.DIR, 2), (0xB9, "ADC", AMode.DIR, 2),
  (0xBA, "ORA", AMode.DIR, 2), (0xBB, "ADD", AMode.DIR, 2),
  (0xBC, "JMP", AMode.DIR, 2), (0xBD, "JSR", AMode.DIR, 2),
  (0xBE, "LDX", AMode.DIR, 2), (0xBF, "STX", AMode.DIR, 2),
  (0xC0, "SUB", AMode.EXT, 3), (0xC1, "CMP", AMode.EXT, 3),
  (0xC2, "SBC", AMode.EXT, 3), (0xC3, "CPX", AMode.EXT, 3),
  (0xC4, "AND", AMode.EXT, 3), (0xC5, "BIT", AMode.EXT, 3),
  (0xC6, "LDA", AMode.EXT, 3), (0xC7, "STA", AMode.EXT, 3),
  (0xC8, "EOR", AMode.EXT, 3), (0xC9, "ADC", AMode.EXT, 3),
  (0xCA, "ORA", AMode.EXT, 3), (0xCB, "ADD", AMode.EXT, 3),
  (0xCC, "JMP", AMode.EXT, 3), (0xCD, "JSR", AMode.EXT, 3),
  (0xCE, "LDX", AMode.EXT, 3), (0xCF, "STX", AMode.EXT, 3),
  (0xD0, "SUB", AMode.IX2, 3), (0xD1, "CMP", AMode.IX2, 3),
  (0xD2, "SBC", AMode.IX2, 3), (0xD3, "CPX", AMode.IX2, 3),
  (0xD4, "AND", AMode.IX2, 3), (0xD5, "BIT", AMode.IX2, 3),
  (0xD6, "LDA", AMode.IX2, 3), (0xD7, "STA", AMode.IX2, 3),
  (0xD8, "EOR", AMode.IX2, 3), (0xD9, "ADC", AMode.IX2, 3),
  (0xDA, "ORA", AMode.IX2, 3), (0xDB, "ADD", AMode.IX2, 3),
  (0xDC, "JMP", AMode.IX2, 3), (0xDD, "JSR", AMode.IX2, 3),
  (0xDE, "LDX", AMode.IX2, 3), (0xDF, "STX", AMode.IX2, 3),
  (0xE0, "SUB", AMode.IX1, 2), (0xE1, "CMP", AMode.IX1, 2),
  (0xE2, "SBC", AMode.IX1, 2), (0xE3, "CPX", AMode.IX1, 2),
  (0xE4, "AND", AMode.IX1, 2), (0xE5, "BIT", AMode.IX1, 2),
  (0xE6, "LDA", AMode.IX1, 2), (0xE7, "STA", AMode.IX1, 2),
  (0xE8, "EOR", AMode.IX1, 2), (0xE9, "ADC", AMode.IX1, 2),
  (0xEA, "ORA", AMode.IX1, 2), (0xEB, "ADD", AMode.IX1, 2),
  (0xEC, "JMP", AMode.IX1, 2), (0xED, "JSR", AMode.IX1, 2),
  (0xEE, "LDX", AMode.IX1, 2), (0xEF, "STX", AMode.IX1, 2),
  (0xF0, "SUB", AMode.IX, 1), (0xF1, "CMP", AMode.IX, 1),
  (0xF2, "SBC", AMode.IX, 1), (0xF3, "CPX", AMode.IX, 1),
  (0xF4, "AND", AMode.IX, 1), (0xF5, "BIT", AMode.IX, 1),
  (0xF6, "LDA", AMode.IX, 1), (0xF7, "STA", AMode.IX, 1),
  (0xF8, "EOR", AMode.IX, 1), (0xF9, "ADC", AMode.IX, 1),
  (0xFA, "ORA", AMode.IX, 1), (0xFB, "ADD", AMode.IX, 1),
  (0xFC, "JMP", AMode.IX, 1), (0xFD, "JSR", AMode.IX, 1),
  (0xFE, "LDX", AMode.IX, 1), (0xFF, "STX", AMode.IX, 1)]

/-- Secondary opcode table reached through the designated 0x9E first byte
(SP-indexed forms); sizes are as tabulated, before the +1 for the first
byte. -/
def HC08_9E_OPCODES : List (Nat × String × AMode × Nat) := [
  (0x60, "NEG", AMode.SP1, 2), (0x63, "COM", AMode.SP1, 2),
  (0x64, "LSR", AMode.SP1, 2), (0x66, "ROR", AMode.SP1, 2),
  (0x67, "ASR", AMode.SP1, 2), (0x68, "LSL", AMode.SP1, 2),
  (0x69, "ROL", AMode.SP1, 2), (0x6A, "DEC", AMode.SP1, 2),
  (0x6B, "DBNZ", AMode.SP1_REL, 3), (0x6C, "INC", AMode.SP1, 2),
  (0x6D, "TST", AMode.SP1, 2), (0x6F, "CLR", AMode.SP1, 2),
  (0xD0, "SUB", AMode.SP2, 3), (0xD1, "CMP", AMode.SP2, 3),
  (0xD2, "SBC", AMode.SP2, 3), (0xD3, "CPX", AMode.SP2, 3),
  (0xD4, "AND", AMode.SP2, 3), (0xD5, "BIT", AMode.SP2, 3),
  (0xD6, "LDA", AMode.SP2, 3), (0xD7, "STA", AMode.SP2, 3),
  (0xD8, "EOR", AMode.SP2, 3), (0xD9, "ADC", AMode.SP2, 3),
  (0xDA, "ORA", AMode.SP2, 3), (0xDB, "ADD", AMode.SP2, 3),
  (0xE0, "SUB", AMode.SP1, 2), (0xE1, "CMP", AMode.SP1, 2),
  (0xE2, "SBC", AMode.SP1, 2), (0xE3, "CPX", AMode.SP1, 2),
  (0xE4, "AND", AMode.SP1, 2), (0xE5, "BIT", AMode.SP1, 2),
  (0xE6, "LDA", AMode.SP1, 2), (0xE7, "STA", AMode.SP1, 2),
  (0xE8, "EOR", AMode.SP1, 2), (0xE9, "ADC", AMode.SP1, 2),
  (0xEA, "ORA", AMode.SP1, 2), (0xEB, "ADD", AMode.SP1, 2)]

/-- MC68HC908GZ60 I/O register names used by the disassembler
(`hc08_disasm.py`; the analyzer has its own, different table). -/
def IO_REGS : List (Nat × String) := [
  (0x00, "PORTA"), (0x01, "PORTB"), (0x02, "PORTC"), (0x03, "PORTD"),
  (0x04, "DDRA"), (0x05, "DDRB"), (0x06, "DDRC"), (0x07, "DDRD"),
  (0x08, "PORTE"), (0x09, "PORTF"), (0x0A, "PORTG"),
  (0x0C, "DDRE"), (0x0D, "DDRF"), (0x0E, "DDRG"),
  (0x10, "PTAPUE"), (0x11, "PTBPUE"), (0x12, "PTCPUE"), (0x13, "PTDPUE"),
  (0x1A, "SCI1S1"), (0x1B, "SCI1S2"), (0x1C, "SCI1C1"), (0x1D, "SCI1C2"),
  (0x1E, "SCI1C3"), (0x1F, "SCI1D"),
  (0x20, "SPIC1"), (0x21, "SPIC2"), (0x22, "SPIBR"), (0x23, "SPIS"),
  (0x25, "SPID"),
  (0x30, "T1SC"), (0x31, "T1CNTH"), (0x32, "T1CNTL"),
  (0x33, "T1MODH"), (0x34, "T1MODL"),
  (0x35, "T1SC0"), (0x36, "T1CH0H"), (0x37, "T1CH0L"),
  (0x38, "T1SC1"), (0x39, "T1CH1H"), (0x3A, "T1CH1L"),
  (0x40, "ADCSC1"), (0x41, "ADCSC2"), (0x42, "ADCRH"), (0x43, "ADCRL"),
  (0x48, "CANCTL0"), (0x49, "CANCTL1"), (0x4A, "CANBTR0"), (0x4B, "CANBTR1"),
  (0x4C, "CANRFLG"), (0x4D, "CANRIER"), (0x4E, "CANTFLG"), (0x4F, "CANTIER")]

/-- Resolves an operand address to a display name: named I/O register,
generic `REG_xx` below 0x40, generic `RAM_xxxx` below 0x0840, else `none`. -/
def get_reg_name (addr : Nat) : Option String :=
  match IO_REGS.lookup addr with
  | some name => some name
  | none =>
    if addr < 0x40 then some ("REG_" ++ pyHex 2 addr)
    else if addr < 0x0840 then some ("RAM_" ++ pyHex 4 addr)
    else none

/-- One decoded record: address, bytes consumed (the cursor advance of the
iteration that emitted it), mnemonic, rendered operand text, and the raw
bytes shown for it.  The source interpolates these fields into one display
line; the line layout itself carries no additional information. -/
structure Instr where
  addr : Int
  size : Nat
  mnem : String
  operand : String
  raw : List Nat
deriving Repr, DecidableEq

/-- Truthiness test of `if max_lines and lines >= max_lines`: `None` and
`0` are both falsy, so they disable the cap. -/
def capReached (max_lines : Option Nat) (lines : Nat) : Bool :=
  match max_lines with
  | none => false
  | some m => if m = 0 then false else decide (m ≤ lines)

/-- Operand rendering for a primary-table instruction, dispatching on the
addressing mode exactly as the source's if/elif chain; reads operand bytes
at `pc + 1` / `pc + 2`.  The final catch-all `"???"` is the source's
trailing `else`. -/
def disOperand (data : List Nat) (pc : Nat) (addr : Int) (mode : AMode)
    (size : Nat) : Option String :=
  match mode with
  | .INH => pure ""
  | .IMM => do
    let imm ← data[pc + 1]?
    pure ("#$" ++ pyHex 2 imm)
  | .DIR => do
    let dir_addr ← data[pc + 1]?
    match get_reg_name dir_addr with
    | some reg_name => pure ("<" ++ reg_name)
    | none => pure ("<$" ++ pyHex 2 dir_addr)
  | .EXT => do
    let hi ← data[pc + 1]?
    let lo ← data[pc + 2]?
    pure ("$" ++ pyHex 4 (hi <<< 8 ||| lo))
  | .IX => pure ",X"
  | .IX1 => do
    let offset ← data[pc + 1]?
    pure ("$" ++ pyHex 2 offset ++ ",X")
  | .IX2 => do
    let hi ← data[pc + 1]?
    let lo ← data[pc + 2]?
    pure ("$" ++ pyHex 4 (hi <<< 8 ||| lo) ++ ",X")
  | .REL => do
    let rel0 ← data[pc + 1]?
    pure ("$" ++ pyIntHex 4 (addr + size + pySigned rel0))
  | .DIR_REL => do
    let dir_addr ← data[pc + 1]?
    let rel0 ← data[pc + 2]?
    let target := addr + size + pySigned rel0
    match get_reg_name dir_addr with
    | some reg_name => pure ("<" ++ reg_name ++ ", $" ++ pyIntHex 4 target)
    | none => pure ("<$" ++ pyHex 2 dir_addr ++ ", $" ++ pyIntHex 4 target)
  | .IMM_REL => do
    let imm ← data[pc + 1]?
    let rel0 ← data[pc + 2]?
    pure ("#$" ++ pyHex 2 imm ++ ", $" ++ pyIntHex 4 (addr + size + pySigned rel0))
  | .IX_REL => do
    let rel0 ← data[pc + 1]?
    pure (",X, $" ++ pyIntHex 4 (addr + size + pySigned rel0))
  | .IX1_REL => do
    let offset ← data[pc + 1]?
    let rel0 ← data[pc + 2]?
    pure ("$" ++ pyHex 2 offset ++ ",X, $" ++ pyIntHex 4 (addr + size + pySigned rel0))
  | _ => pure "???"

/-- Decode of the non-0x9E path: unknown opcode and tabulated-length
overrun both degrade to a 1-byte `DB` record; otherwise the record spans
`size` bytes and the cursor advances by `size`. -/
def disStepMain (data : List Nat) (base_addr : Int) (pc : Nat) (opcode : Nat) :
    Option (Instr × Nat) :=
  let addr : Int := base_addr + pc
  match HC08_OPCODES.lookup opcode with
  | none => some (⟨addr, 1, "DB", "$" ++ pyHex 2 opcode, [opcode]⟩, pc + 1)
  | some (mnem, mode, size) =>
    if data.length < pc + size then
      some (⟨addr, 1, "DB", "$" ++ pyHex 2 opcode, [opcode]⟩, pc + 1)
    else
      match readBytes data pc size with
      | none => none
      | some raw =>
        match disOperand data pc addr mode size with
        | none => none
        | some operand => some (⟨addr, size, mnem, operand, raw⟩, pc + size)

/-- Operand rendering of the 0x9E-prefixed path: each case carries its own
length guard, and a failing guard renders `"???"` (without shrinking the
consumed size). -/
def disOperand9E (data : List Nat) (pc : Nat) (addr : Int) (mode : AMode)
    (size : Nat) : Option String :=
  if mode = AMode.SP1 ∧ pc + 2 < data.length then do
    let offset ← data[pc + 2]?
    pure ("$" ++ pyHex 2 offset ++ ",SP")
  else if mode = AMode.SP2 ∧ pc + 3 < data.length then do
    let hi ← data[pc + 2]?
    let lo ← data[pc + 3]?
    pure ("$" ++ pyHex 4 (hi <<< 8 ||| lo) ++ ",SP")
  else if mode = AMode.SP1_REL ∧ pc + 3 < data.length then do
    let offset ← data[pc + 2]?
    let rel0 ← data[pc + 3]?
    pure ("$" ++ pyHex 2 offset ++ ",SP, $" ++ pyIntHex 4 (addr + size + pySigned rel0))
  else pure "???"

/-- One iteration of the disassembly loop at cursor `pc`: the 0x9E-prefixed
path when the second byte exists and is in the secondary table (note the
cursor advances by the full prefixed size even when the operand guards
fail and render `"???"`), otherwise the primary path. -/
def disStep (data : List Nat) (base_addr : Int) (pc : Nat) :
    Option (Instr × Nat) :=
  let addr : Int := base_addr + pc
  match data[pc]? with
  | none => none
  | some opcode =>
    if opcode = 0x9E ∧ pc + 1 < data.length then
      match data[pc + 1]? with
      | none => none
      | some sub_op =>
        match HC08_9E_OPCODES.lookup sub_op with
        | some (mnem, mode, size0) =>
          let size := size0 + 1
          match readBytes data pc (min size (data.length - pc)) with
          | none => none
          | some raw =>
            match disOperand9E data pc addr mode size with
            | none => none
            | some operand => some (⟨addr, size, mnem, operand, raw⟩, pc + size)
        | none => disStepMain data base_addr pc opcode
    else disStepMain data base_addr pc opcode

/-- The disassembly while-loop, fuelled; emits records until the cursor
reaches the end of the buffer or the line cap fires. -/
def disGo (data : List Nat) (base_addr : Int) (max_lines : Option Nat) :
    Nat → Nat → Nat → Option (List Instr)
  | pc, _lines, 0 => if data.length ≤ pc then some [] else none
  | pc, lines, fuel + 1 =>
    if pc < data.length then
      if capReached max_lines lines then some []
      else
        match disStep data base_addr pc with
        | none => none
        | some (ins, pc') =>
          (disGo data base_addr max_lines pc' (lines + 1) fuel).map (ins :: ·)
    else some []

/-- Models `disassemble(data, base_addr, max_lines)`; the emitted records in
order.  `max_lines = none` models Python's `None` default. -/
def disassemble (data : List Nat) (base_addr : Int) (max_lines : Option Nat) :
    Option (List Instr) :=
  disGo data base_addr max_lines 0 0 (data.length + 1)

/-- Buffer extent beyond `pc` that `disOperand` needs for each addressing
mode; the table-consistency check below shows every tabulated size covers
it, which is why the in-bounds guard `pc + size ≤ length` protects every
operand read. -/
def minBytes : AMode → Nat
  | .INH => 1
  | .IMM => 2
  | .DIR => 2
  | .EXT => 3
  | .IX => 1
  | .IX1 => 2
  | .IX2 => 3
  | .REL => 2
  | .DIR_REL => 3
  | .IMM_REL => 3
  | .IX_REL => 2
  | .IX1_REL => 3
  | .SP1 => 1
  | .SP2 => 1
  | .SP1_REL => 1

end Hc08

namespace Pdm

/-- MC68HC908GZ60 I/O register table used by the analysis passes
(`analyze_pdm.py`; note it differs from the disassembler's table). -/
def IO_REGS : List (Nat × String) := [
  (0x00, "PORTA"), (0x01, "PORTB"), (0x02, "PORTC"), (0x03, "PORTD"),
  (0x04, "DDRA"), (0x05, "DDRB"), (0x06, "DDRC"), (0x07, "DDRD"),
  (0x08, "PORTE"), (0x09, "PORTF"), (0x0A, "PORTG"),
  (0x0C, "DDRE"), (0x0D, "DDRF"), (0x0E, "DDRG"),
  (0x10, "PTAPUE"), (0x11, "PTBPUE"), (0x12, "PTCPUE"), (0x13, "PTDPUE"),
  (0x14, "PTEPUE"), (0x15, "PTFPUE"), (0x16, "PTGPUE"),
  (0x18, "SCC1"), (0x19, "SCC2"), (0x1A, "SCC3"), (0x1B, "SCS1"),
  (0x1C, "SCS2"), (0x1D, "SCDR"), (0x1E, "SCBR"),
  (0x20, "SPCR"), (0x21, "SPSCR"), (0x22, "SPDR"),
  (0x24, "TBCR"), (0x25, "TBDR"),
  (0x30, "T1SC"), (0x31, "T1CNTH"), (0x32, "T1CNTL"),
  (0x33, "T1MODH"), (0x34, "T1MODL"),
  (0x35, "T1SC0"), (0x36, "T1CH0H"), (0x37, "T1CH0L"),
  (0x38, "T1SC1"), (0x39, "T1CH1H"), (0x3A, "T1CH1L"),
  (0x40, "T2SC"), (0x41, "T2CNTH"), (0x42, "T2CNTL"),
  (0x43, "T2MODH"), (0x44, "T2MODL"),
  (0x45, "T2SC0"), (0x46, "T2CH0H"), (0x47, "T2CH0L"),
  (0x48, "T2SC1"), (0x49, "T2CH1H"), (0x4A, "T2CH1L"),
  (0x50, "ADSCR"), (0x51, "ADR"),
  (0x58, "CMCR0"), (0x59, "CMCR1"), (0x5A, "CBTR0"), (0x5B, "CBTR1"),
  (0x5C, "CRFLG"), (0x5D, "CRIER"), (0x5E, "CTFLG"), (0x5F, "CTIER"),
  (0x60, "CTARQ"), (0x61, "CTAAK"), (0x62, "CTBSEL"), (0x63, "CIDAC"),
  (0x64, "CRXERR"), (0x65, "CTXERR"),
  (0x68, "CIDAR0"), (0x69, "CIDAR1"), (0x6A, "CIDAR2"), (0x6B, "CIDAR3"),
  (0x70, "CIDMR0"), (0x71, "CIDMR1"), (0x72, "CIDMR2"), (0x73, "CIDMR3"),
  (0x74, "CIDAR4"), (0x75, "CIDAR5"), (0x76, "CIDAR6"), (0x77, "CIDAR7"),
  (0x78, "CIDMR4"), (0x79, "CIDMR5"), (0x7A, "CIDMR6"), (0x7B, "CIDMR7"),
  (0x80, "CRXFG"), (0x90, "CTXFG"),
  (0xFE00, "CONFIG2"), (0xFE01, "CONFIG1")]

/-- The scan loop of `find_subroutines`: call targets of the three call
forms (JSR direct 0xBD — the operand byte verbatim; JSR extended 0xCD —
big-endian 2-byte operand; BSR 0xAD — relative), collected in scan order;
other bytes advance the cursor by 1. -/
def subsGo (data : List Nat) (base : Int) : Nat → Nat → Option (List Int)
  | pc, 0 => if data.length ≤ pc then some [] else none
  | pc, fuel + 1 =>
    if pc < data.length then
      match data[pc]? with
      | none => none
      | some op =>
        if op = 0xBD ∧ pc + 1 < data.length then
          match data[pc + 1]? with
          | none => none
          | some target => (subsGo data base (pc + 2) fuel).map ((target : Int) :: ·)
        else if op = 0xCD ∧ pc + 2 < data.length then
          match data[pc + 1]?, data[pc + 2]? with
          | some hi, some lo =>
            (subsGo data base (pc + 3) fuel).map ((((hi <<< 8 ||| lo) : Nat) : Int) :: ·)
          | _, _ => none
        else if op = 0xAD ∧ pc + 1 < data.length then
          match data[pc + 1]? with
          | none => none
          | some rel0 => (subsGo data base (pc + 2) fuel).map ((base + pc + 2 + pySigned rel0) :: ·)
        else
          subsGo data base (pc + 1) fuel
    else some []

/-- Models `find_subroutines`: the collected call targets as a sorted,
deduplicated list (Python's `sorted(set(subs))`; the set is modeled as
`dedup` of the collected occurrences, `sorted` as `insertionSort`). -/
def find_subroutines (data : List Nat) (base : Int) : Option (List Int) :=
  (subsGo data base 0 (data.length + 1)).map
    (fun subs => subs.dedup.insertionSort (· ≤ ·))

/-- The scan loop of `find_io_accesses`: direct-page loads/stores, bit
set/clear and bit-test-branch opcodes, and the two extended-addressed
forms 0xC6/0xC7, classified as read or write sites when the operand
address is in the analyzer register table.  The per-register site lists
of the source are flattened to (register, site) pairs in scan order. -/
def ioGo (data : List Nat) (base : Int) :
    Nat → Nat → Option (List (Nat × Int) × List (Nat × Int))
  | pc, 0 => if data.length ≤ pc then some ([], []) else none
  | pc, fuel + 1 =>
    if pc < data.length then
      match data[pc]? with
      | none => none
      | some op =>
        let addr : Int := base + pc
        if op = 0xB6 ∧ pc + 1 < data.length then
          match data[pc + 1]? with
          | none => none
          | some reg =>
            (ioGo data base (pc + 2) fuel).map fun rest =>
              if (IO_REGS.lookup reg).isSome then ((reg, addr) :: rest.1, rest.2) else rest
        else if op = 0xB7 ∧ pc + 1 < data.length then
          match data[pc + 1]? with
          | none => none
          | some reg =>
            (ioGo data base (pc + 2) fuel).map fun rest =>
              if (IO_REGS.lookup reg).isSome then (rest.1, (reg, addr) :: rest.2) else rest
        else if op = 0xBE ∧ pc + 1 < data.length then
          match data[pc + 1]? with
          | none => none
          | some reg =>
            (ioGo data base (pc + 2) fuel).map fun rest =>
              if (IO_REGS.lookup reg).isSome then ((reg, addr) :: rest.1, rest.2) else rest
        else if op = 0xBF ∧ pc + 1 < data.length then
          match data[pc + 1]? with
          | none => none
          | some reg =>
            (ioGo data base (pc + 2) fuel).map fun rest =>
              if (IO_REGS.lookup reg).isSome then (rest.1, (reg, addr) :: rest.2) else rest
        else if (0x10 ≤ op ∧ op ≤ 0x1F) ∧ pc + 1 < data.length then
          match data[pc + 1]? with
          | none => none
          | some reg =>
            (ioGo data base (pc + 2) fuel).map fun rest =>
              if (IO_REGS.lookup reg).isSome then (rest.1, (reg, addr) :: rest.2) else rest
        else if op ≤ 0x0F ∧ pc + 2 < data.length then
          match data[pc + 1]? with
          | none => none
          | some reg =>
            (ioGo data base (pc + 3) fuel).map fun rest =>
              if (IO_REGS.lookup reg).isSome then ((reg, addr) :: rest.1, rest.2) else rest
        else if op = 0xC6 ∧ pc + 2 < data.length then
          match data[pc + 1]?, data[pc + 2]? with
          | some hi, some lo =>
            (ioGo data base (pc + 3) fuel).map fun rest =>
              if (IO_REGS.lookup (hi <<< 8 ||| lo)).isSome then
                ((hi <<< 8 ||| lo, addr) :: rest.1, rest.2)
              else rest
          | _, _ => none
        else if op = 0xC7 ∧ pc + 2 < data.length then
          match data[pc + 1]?, data[pc + 2]? with
          | some hi, some lo =>
            (ioGo data base (pc + 3) fuel).map fun rest =>
              if (IO_REGS.lookup (hi <<< 8 ||| lo)).isSome then
                (rest.1, (hi <<< 8 ||| lo, addr) :: rest.2)
              else rest
          | _, _ => none
        else
          ioGo data base (pc + 1) fuel
    else some ([], [])

/-- Models `find_io_accesses`: (read sites, write sites). -/
def find_io_accesses (data : List Nat) (base : Int) :
    Option (List (Nat × Int) × List (Nat × Int)) :=
  ioGo data base 0 (data.length + 1)

/-- The scan loop of `find_ram_usage`: every extended-addressed opcode
0xC0–0xCF other than JMP/JSR (0xCC/0xCD) whose 2-byte operand lies in the
RAM interval 0x0040–0x083F is counted, writes for STA (0xC7) only, reads
otherwise.  The `defaultdict(int)` counters are the occurrence lists
(reads, writes); a counter value is `List.count`. -/
def ramGo (data : List Nat) : Nat → Nat → Option (List Nat × List Nat)
  | pc, 0 => if data.length ≤ pc then some ([], []) else none
  | pc, fuel + 1 =>
    if pc < data.length then
      match data[pc]? with
      | none => none
      | some op =>
        if (0xC0 ≤ op ∧ op ≤ 0xCF) ∧ ¬(op = 0xCC ∨ op = 0xCD) ∧ pc + 2 < data.length then
          match data[pc + 1]?, data[pc + 2]? with
          | some hi, some lo =>
            let ext := hi <<< 8 ||| lo
            (ramGo data (pc + 3) fuel).map fun rest =>
              if 0x0040 ≤ ext ∧ ext ≤ 0x083F then
                if op = 0xC7 then (rest.1, ext :: rest.2)
                else (ext :: rest.1, rest.2)
              else rest
          | _, _ => none
        else ramGo data (pc + 1) fuel
    else some ([], [])

/-- Models `find_ram_usage` (the `base` parameter is unused in the source
as well): (RAM read occurrences, RAM write occurrences). -/
def find_ram_usage (data : List Nat) (_base : Int) : Option (List Nat × List Nat) :=
  ramGo data 0 (data.length + 1)

/-- The branch-opcode list scanned by `analyze_main_loop` (note it omits
0x21, BRN). -/
def branchOps : List Nat :=
  [0x20, 0x22, 0x23, 0x24, 0x25, 0x26, 0x27, 0x28, 0x29,
   0x2A, 0x2B, 0x2C, 0x2D, 0x2E, 0x2F, 0x90, 0x91, 0x92, 0x93]

/-- The scan loop of `analyze_main_loop`: for each listed branch opcode
with an operand byte, compute the target; when the displacement is
negative record `(branch address, target, -displacement)`.  The cursor
advances by 2 after a listed branch opcode (even without an operand byte)
and by 1 otherwise. -/
def loopGo (data : List Nat) (base : Int) :
    Nat → Nat → Option (List (Int × Int × Int))
  | pc, 0 => if data.length ≤ pc then some [] else none
  | pc, fuel + 1 =>
    if pc < data.length then
      match data[pc]? with
      | none => none
      | some op =>
        if op ∈ branchOps then
          if pc + 1 < data.length then
            match data[pc + 1]? with
            | none => none
            | some rel0 =>
              let rel := pySigned rel0
              let target := base + pc + 2 + rel
              (loopGo data base (pc + 2) fuel).map fun rest =>
                if rel < 0 then (base + pc, target, -rel) :: rest else rest
          else loopGo data base (pc + 2) fuel
        else loopGo data base (pc + 1) fuel
    else some []

/-- Models `analyze_main_loop`: the recorded loop sites in scan order. -/
def analyze_main_loop (data : List Nat) (base : Int) :
    Option (List (Int × Int × Int)) :=
  loopGo data base 0 (data.length + 1)

/-- The inner while-loop of `find_strings`: the index of the first
position at or after `i` that is out of range or non-printable. -/
def runEnd (data : List Nat) : Nat → Nat → Option Nat
  | i, 0 => if data.length ≤ i then some i else none
  | i, fuel + 1 =>
    if i < data.length then
      match data[i]? with
      | none => none
      | some b =>
        if 0x20 ≤ b ∧ b ≤ 0x7E then runEnd data (i + 1) fuel else some i
    else some i

/-- The outer scan of `find_strings`: a maximal printable run of length at
least `min_len` starting at `i` is reported as (absolute address, decoded
text); scanning resumes one position after the end of the run. -/
def strGo (data : List Nat) (base : Int) (min_len : Nat) :
    Nat → Nat → Option (List (Int × String))
  | i, 0 => if data.length ≤ i then some [] else none
  | i, fuel + 1 =>
    if i < data.length then
      match data[i]? with
      | none => none
      | some b =>
        if 0x20 ≤ b ∧ b ≤ 0x7E then
          match runEnd data i (data.length + 1 - i) with
          | none => none
          | some e =>
            (strGo data base min_len (e + 1) fuel).map fun rest =>
              if min_len ≤ e - i then
                (base + i, String.mk (((data.take e).drop i).map Char.ofNat)) :: rest
              else rest
        else strGo data base min_len (i + 1) fuel
    else some []

/-- Models `find_strings`: printable-ASCII runs of length at least
`min_len`, with their absolute start addresses. -/
def find_strings (data : List Nat) (base : Int) (min_len : Nat) :
    Option (List (Int × String)) :=
  strGo data base min_len 0 (data.length + 1)

end Pdm

namespace Srec

/-- Python whitespace characters recognised by `str.strip()` (the ASCII
ones; the record format never contains non-ASCII whitespace). -/
def isPySpace (c : Char) : Bool :=
  c = ' ' ∨ c = '\t' ∨ c = '\n' ∨ c = '\r' ∨ c = Char.ofNat 11 ∨ c = Char.ofNat 12

/-- Models `line.strip()`. -/
def pyStrip (cs : List Char) : List Char :=
  ((cs.dropWhile isPySpace).reverse.dropWhile isPySpace).reverse

/-- Models the Python slice `s[a:b]` for nonnegative bounds (total:
out-of-range and empty slices yield the empty list). -/
def pySlice (cs : List Char) (a b : Nat) : List Char :=
  (cs.take b).drop a

/-- Value of one hex digit character, either case; `none` for a non-hex
character. -/
def hexCharVal (c : Char) : Option Nat :=
  if '0' ≤ c ∧ c ≤ '9' then some (c.toNat - 48)
  else if 'a' ≤ c ∧ c ≤ 'f' then some (c.toNat - 87)
  else if 'A' ≤ c ∧ c ≤ 'F' then some (c.toNat - 55)
  else none

/-- Models `int(s, 16)` on the plain unsigned hexadecimal tokens this
format produces (`none` models the `ValueError` on an empty or non-hex
string; signs, `0x` prefixes and underscores do not occur in the fields
sliced out of a record). -/
def hexToNat (cs : List Char) : Option Nat :=
  if cs.isEmpty then none
  else cs.foldlM (fun acc c => (fun v => 16 * acc + v) <$> hexCharVal c) 0

/-- Models `bytes.fromhex`: pairs of hex digits; `none` models the
`ValueError` on an odd-length or non-hex string. -/
def fromhex : List Char → Option (List Nat)
  | [] => some []
  | [_] => none
  | c1 :: c2 :: rest => do
    let h ← hexCharVal c1
    let l ← hexCharVal c2
    let bs ← fromhex rest
    pure ((16 * h + l) :: bs)

/-- Insertion into a Python dict keyed by address: an existing key is
updated in place, a new key is appended (insertion order). -/
def dictInsert : List (Nat × Nat) → Nat → Nat → List (Nat × Nat)
  | [], k, v => [(k, v)]
  | (k', v') :: rest, k, v =>
    if k' = k then (k, v) :: rest else (k', v') :: dictInsert rest k v

/-- The payload write loop `for i, b in enumerate(data): memory[address + i] = b`. -/
def writeSeq : List (Nat × Nat) → Nat → List Nat → List (Nat × Nat)
  | mem, _, [] => mem
  | mem, a, b :: bs => writeSeq (dictInsert mem a b) (a + 1) bs

/-- The loader's running state: sparse memory dict, least data address seen
(`None` before the first data record), and one past the greatest. -/
structure LoadState where
  memory : List (Nat × Nat)
  start_addr : Option Nat
  end_addr : Nat
deriving Repr, DecidableEq

/-- State update for one data record at `address` with payload `dat`:
lower `start_addr`, raise `end_addr`, write the payload bytes. -/
def applyData (st : LoadState) (address : Nat) (dat : List Nat) : LoadState :=
  { memory := writeSeq st.memory address dat
    start_addr :=
      match st.start_addr with
      | none => some address
      | some s0 => if address < s0 then some address else some s0
    end_addr :=
      if st.end_addr < address + dat.length then address + dat.length
      else st.end_addr }

/-- Processing of a single input line of `parse_srec`: blank and
non-`S` lines are skipped, record types 0/8/9 are decoded but leave the
state unchanged, types 1 and 2 are data records; `none` models an
uncaught exception while slicing or converting. -/
def processLine (st : LoadState) (line : String) : Option LoadState :=
  let s := pyStrip line.data
  if s.isEmpty then some st
  else if s.head? ≠ some 'S' then some st
  else
    match s[1]? with
    | none => none
    | some record_type =>
      match record_type with
      | '0' =>
        match hexToNat (pySlice s 2 4) with
        | none => none
        | some byte_count =>
          match fromhex (pySlice s 8 (8 + (byte_count - 3) * 2)) with
          | none => none
          | some _header => some st
      | '1' =>
        match hexToNat (pySlice s 2 4) with
        | none => none
        | some byte_count =>
          match hexToNat (pySlice s 4 8) with
          | none => none
          | some address =>
            match fromhex (pySlice s 8 (8 + (byte_count - 3) * 2)) with
            | none => none
            | some dat => some (applyData st address dat)
      | '2' =>
        match hexToNat (pySlice s 2 4) with
        | none => none
        | some byte_count =>
          match hexToNat (pySlice s 4 10) with
          | none => none
          | some address =>
            match fromhex (pySlice s 10 (10 + (byte_count - 4) * 2)) with
            | none => none
            | some dat => some (applyData st address dat)
      | '9' =>
        match hexToNat (pySlice s 4 8) with
        | none => none
        | some _entry_point => some st
      | '8' =>
        match hexToNat (pySlice s 4 10) with
        | none => none
        | some _entry_point => some st
      | _ => some st

/-- The line loop of `parse_srec`. -/
def parseLines : LoadState → List String → Option LoadState
  | st, [] => some st
  | st, line :: rest =>
    match processLine st line with
    | none => none
    | some st' => parseLines st' rest

/-- Models `parse_srec` on the lines of its input file: the final
(memory, start_addr, end_addr) state, or `none` for an uncaught
exception.  Note that with zero data records the function returns the
initial state (empty dict, `None`, 0) rather than raising. -/
def parse_srec (lines : List String) : Option LoadState :=
  parseLines ⟨[], none, 0⟩ lines

/-- The buffer write loop of `save_binary`: each dict entry whose offset
from `start_addr` is within `[0, size)` overwrites the corresponding
buffer byte; out-of-window entries are skipped. -/
def writeMem (start_addr size : Nat) : List Nat → List (Nat × Nat) → List Nat
  | binary, [] => binary
  | binary, (addr, byte) :: rest =>
    let offset : Int := (addr : Int) - start_addr
    if 0 ≤ offset ∧ offset < size then
      writeMem start_addr size (binary.set offset.toNat byte) rest
    else
      writeMem start_addr size binary rest

/-- Models `save_binary` up to the file write: the dense buffer of
`end_addr - start_addr` bytes, filled with the erased-flash sentinel 0xFF
and overwritten from the sparse dict.  `none` models the `ValueError`
Python's `bytearray` raises on a negative size. -/
def save_binary (memory : List (Nat × Nat)) (start_addr end_addr : Nat) :
    Option (List Nat) :=
  if end_addr < start_addr then none
  else
    let size := end_addr - start_addr
    some (writeMem start_addr size (List.replicate size 0xFF) memory)

/-- Recognizer for a data-record line (types 1 and 2): after stripping,
the line starts with 'S' followed by '1' or '2'.  Only these lines touch
the loader state. -/
def isDataRecord (line : String) : Bool :=
  match pyStrip line.data with
  | 'S' :: c :: _ => c = '1' ∨ c = '2'
  | _ => false

end Srec



/-- An in-bounds index always reads some byte. -/
theorem getElem?_some {α : Type} {l : List α} {i : Nat} (h : i < l.length) :
    ∃ b, l[i]? = some b :=
  ⟨l[i], List.getElem?_eq_getElem h⟩

/-- A successful association-list lookup produces a member of the list. -/
theorem lookup_mem {β : Type} {k : Nat} {b : β} :
    ∀ {l : List (Nat × β)}, List.lookup k l = some b → (k, b) ∈ l := by
  intro l
  induction l with
  | nil => intro h; simp [List.lookup] at h
  | cons p rest ih =>
    intro h
    rw [List.lookup] at h
    by_cases hk : k = p.1
    · subst hk
      simp at h
      subst h
      exact List.mem_cons_self _ _
    · have hb : (k == p.1) = false := beq_false_of_ne hk
      rw [hb] at h
      exact List.mem_cons_of_mem _ (ih h)

/-- A failed association-list lookup means the key is absent. -/
theorem lookup_none_not_mem {β : Type} {k : Nat} {b : β} :
    ∀ {l : List (Nat × β)}, List.lookup k l = none → (k, b) ∉ l := by
  intro l
  induction l with
  | nil => intro _ h; simp at h
  | cons p rest ih =>
    intro h hmem
    rw [List.lookup] at h
    by_cases hk : k = p.1
    · subst hk; simp at h
    · have hb : (k == p.1) = false := beq_false_of_ne hk
      rw [hb] at h
      rcases List.mem_cons.mp hmem with heq | hmem'
      · exact hk (congrArg Prod.fst heq)
      · exact ih h hmem'

/-- Big-endian assembly of two bytes: for a low byte below 256 the
`(hi << 8) | lo` of the source is plain positional arithmetic. -/
theorem shiftLeft8_or (hi lo : Nat) (h : lo < 256) : hi <<< 8 ||| lo = 256 * hi + lo := by
  apply Nat.eq_of_testBit_eq
  intro j
  have h256 : (256 : Nat) * hi + lo = 2 ^ 8 * hi + lo := by norm_num
  rw [Nat.testBit_lor, Nat.testBit_shiftLeft, h256,
    Nat.testBit_mul_pow_two_add hi (show lo < 2 ^ 8 by omega) j]
  by_cases hj : j < 8
  · simp [hj, show ¬ (j ≥ 8) by omega]
  · have hpow : (256 : Nat) ≤ 2 ^ j := by
      calc (256 : Nat) = 2 ^ 8 := by norm_num
        _ ≤ 2 ^ j := Nat.pow_le_pow_right (by norm_num) (by omega)
    have hlo : lo.testBit j = false := Nat.testBit_lt_two_pow (lt_of_lt_of_le h hpow)
    simp [hj, hlo, show j ≥ 8 by omega]

/-- Reading inside the buffer always succeeds. -/
theorem readBytes_isSome (data : List Nat) :
    ∀ (n pc : Nat), pc + n ≤ data.length → ∃ bs, readBytes data pc n = some bs := by
  intro n
  induction n with
  | zero => intro pc _; exact ⟨[], rfl⟩
  | succ m ih =>
    intro pc h
    obtain ⟨b, hb⟩ := getElem?_some (show pc < data.length by omega)
    obtain ⟨bs, hbs⟩ := ih (pc + 1) (by omega)
    refine ⟨b :: bs, ?_⟩
    simp [readBytes, hb, hbs]

set_option maxRecDepth 8000 in
/-- Every primary-table entry has a positive size covering its mode's
operand reads. -/
theorem hc08_table_sizes :
    ∀ p ∈ Hc08.HC08_OPCODES, 1 ≤ p.2.2.2 ∧ Hc08.minBytes p.2.2.1 ≤ p.2.2.2 := by decide

/-- The primary operand renderer succeeds whenever the mode's operand
bytes are inside the buffer. -/
theorem disOperand_isSome (data : List Nat) (pc : Nat) (addr : Int)
    (mode : Hc08.AMode) (size : Nat) (h : pc + Hc08.minBytes mode ≤ data.length) :
    (Hc08.disOperand data pc addr mode size).isSome := by
  cases mode <;> simp only [Hc08.minBytes] at h
  case INH => rfl
  case IX => rfl
  case SP1 => rfl
  case SP2 => rfl
  case SP1_REL => rfl
  case IMM =>
    obtain ⟨b, hb⟩ := getElem?_some (show pc + 1 < data.length by omega)
    simp [Hc08.disOperand, hb]
  case DIR =>
    obtain ⟨b, hb⟩ := getElem?_some (show pc + 1 < data.length by omega)
    cases hr : Hc08.get_reg_name b <;> simp [Hc08.disOperand, hb, hr]
  case EXT =>
    obtain ⟨b1, hb1⟩ := getElem?_some (show pc + 1 < data.length by omega)
    obtain ⟨b2, hb2⟩ := getElem?_some (show pc + 2 < data.length by omega)
    simp [Hc08.disOperand, hb1, hb2]
  case IX1 =>
    obtain ⟨b, hb⟩ := getElem?_some (show pc + 1 < data.length by omega)
    simp [Hc08.disOperand, hb]
  case IX2 =>
    obtain ⟨b1, hb1⟩ := getElem?_some (show pc + 1 < data.length by omega)
    obtain ⟨b2, hb2⟩ := getElem?_some (show pc + 2 < data.length by omega)
    simp [Hc08.disOperand, hb1, hb2]
  case REL =>
    obtain ⟨b, hb⟩ := getElem?_some (show pc + 1 < data.length by omega)
    simp [Hc08.disOperand, hb]
  case DIR_REL =>
    obtain ⟨b1, hb1⟩ := getElem?_some (show pc + 1 < data.length by omega)
    obtain ⟨b2, hb2⟩ := getElem?_some (show pc + 2 < data.length by omega)
    cases hr : Hc08.get_reg_name b1 <;> simp [Hc08.disOperand, hb1, hb2, hr]
  case IMM_REL =>
    obtain ⟨b1, hb1⟩ := getElem?_some (show pc + 1 < data.length by omega)
    obtain ⟨b2, hb2⟩ := getElem?_some (show pc + 2 < data.length by omega)
    simp [Hc08.disOperand, hb1, hb2]
  case IX_REL =>
    obtain ⟨b, hb⟩ := getElem?_some (show pc + 1 < data.length by omega)
    simp [Hc08.disOperand, hb]
  case IX1_REL =>
    obtain ⟨b1, hb1⟩ := getElem?_some (show pc + 1 < data.length by omega)
    obtain ⟨b2, hb2⟩ := getElem?_some (show pc + 2 < data.length by omega)
    simp [Hc08.disOperand, hb1, hb2]

/-- The 0x9E operand renderer always succeeds: every read is inside its
own guard, and a failing guard renders `"???"`. -/
theorem disOperand9E_isSome (data : List Nat) (pc : Nat) (addr : Int)
    (mode : Hc08.AMode) (size : Nat) :
    (Hc08.disOperand9E data pc addr mode size).isSome := by
  unfold Hc08.disOperand9E
  by_cases h1 : mode = Hc08.AMode.SP1 ∧ pc + 2 < data.length
  · obtain ⟨b, hb⟩ := getElem?_some h1.2
    simp [h1, hb]
  · by_cases h2 : mode = Hc08.AMode.SP2 ∧ pc + 3 < data.length
    · obtain ⟨b1, hb1⟩ := getElem?_some (show pc + 2 < data.length by omega)
      obtain ⟨b2, hb2⟩ := getElem?_some h2.2
      simp [h1, h2, hb1, hb2]
    · by_cases h3 : mode = Hc08.AMode.SP1_REL ∧ pc + 3 < data.length
      · obtain ⟨b1, hb1⟩ := getElem?_some (show pc + 2 < data.length by omega)
        obtain ⟨b2, hb2⟩ := getElem?_some h3.2
        simp [h1, h2, h3, hb1, hb2]
      · simp [h1, h2, h3]

/-- The primary decode path always emits a record when the cursor is in
bounds. -/
theorem disStepMain_isSome (data : List Nat) (base_addr : Int) (pc opcode : Nat)
    (_h : pc < data.length) :
    (Hc08.disStepMain data base_addr pc opcode).isSome := by
  unfold Hc08.disStepMain
  cases hl : List.lookup opcode Hc08.HC08_OPCODES with
  | none => simp
  | some e =>
    obtain ⟨mnem, mode, size⟩ := e
    have hsz1 : 1 ≤ size := (hc08_table_sizes _ (lookup_mem hl)).1
    have hsz2 : Hc08.minBytes mode ≤ size := (hc08_table_sizes _ (lookup_mem hl)).2
    by_cases hlen : data.length < pc + size
    · simp [hlen]
    · obtain ⟨bs, hbs⟩ := readBytes_isSome data size pc (by omega)
      have ho := disOperand_isSome data pc (base_addr + pc) mode size (by omega)
      obtain ⟨s, hs⟩ := Option.isSome_iff_exists.mp ho
      simp [hlen, hbs, hs]

/-- One decode iteration always emits a record when the cursor is in
bounds. -/
theorem disStep_isSome (data : List Nat) (base_addr : Int) (pc : Nat)
    (h : pc < data.length) : (Hc08.disStep data base_addr pc).isSome := by
  obtain ⟨op, hop⟩ := getElem?_some h
  unfold Hc08.disStep
  rw [hop]
  by_cases h9 : op = 0x9E ∧ pc + 1 < data.length
  · obtain ⟨hop9, h92⟩ := h9
    subst hop9
    obtain ⟨sub, hsub⟩ := getElem?_some h92
    cases h9l : List.lookup sub Hc08.HC08_9E_OPCODES with
    | none =>
      obtain ⟨r, hr⟩ :=
        Option.isSome_iff_exists.mp (disStepMain_isSome data base_addr pc 0x9E h)
      simp [h92, hsub, h9l, hr]
    | some e =>
      obtain ⟨mnem, mode, size0⟩ := e
      obtain ⟨bs, hbs⟩ :=
        readBytes_isSome data (min (size0 + 1) (data.length - pc)) pc (by omega)
      obtain ⟨s, hs⟩ := Option.isSome_iff_exists.mp
        (disOperand9E_isSome data pc (base_addr + pc) mode (size0 + 1))
      simp [h92, hsub, h9l, hbs, hs]
  · obtain ⟨r, hr⟩ :=
      Option.isSome_iff_exists.mp (disStepMain_isSome data base_addr pc op h)
    simp [h9, hr]

/-- The primary decode path strictly advances the cursor. -/
theorem disStepMain_lt (data : List Nat) (base_addr : Int) (pc opcode : Nat)
    (ins : Hc08.Instr) (pc' : Nat)
    (h : Hc08.disStepMain data base_addr pc opcode = some (ins, pc')) : pc < pc' := by
  simp only [Hc08.disStepMain] at h
  split at h
  · simp only [Option.some.injEq, Prod.mk.injEq] at h
    omega
  · rename_i mnem mode size heq
    split at h
    · simp only [Option.some.injEq, Prod.mk.injEq] at h
      omega
    · split at h
      · simp at h
      · split at h
        · simp at h
        · simp only [Option.some.injEq, Prod.mk.injEq] at h
          have hsz1 : 1 ≤ size := (hc08_table_sizes _ (lookup_mem heq)).1
          omega

/-- One decode iteration strictly advances the cursor. -/
theorem disStep_lt (data : List Nat) (base_addr : Int) (pc : Nat)
    (ins : Hc08.Instr) (pc' : Nat)
    (h : Hc08.disStep data base_addr pc = some (ins, pc')) : pc < pc' := by
  simp only [Hc08.disStep] at h
  split at h
  · simp at h
  · rename_i opcode heq0
    split at h
    · split at h
      · simp at h
      · rename_i sub_op hsub
        split at h
        · rename_i mnem mode size0 hlook
          split at h
          · simp at h
          · rename_i raw hraw
            split at h
            · simp at h
            · simp only [Option.some.injEq, Prod.mk.injEq] at h
              omega
        · exact disStepMain_lt data base_addr pc opcode ins pc' h
    · exact disStepMain_lt data base_addr pc opcode ins pc' h

/-- Past the end of the buffer the loop stops immediately, whatever the
fuel. -/
theorem disGo_done (data : List Nat) (base_addr : Int) (max_lines : Option Nat)
    (pc lines fuel : Nat) (h : data.length ≤ pc) :
    Hc08.disGo data base_addr max_lines pc lines fuel = some [] := by
  cases fuel with
  | zero => simp [Hc08.disGo, h]
  | succ n => simp [Hc08.disGo, show ¬ pc < data.length by omega]

/-- With enough fuel the disassembly loop always terminates normally. -/
theorem disGo_isSome (data : List Nat) (base_addr : Int) (max_lines : Option Nat) :
    ∀ (fuel pc lines : Nat), data.length ≤ pc + fuel →
      ∃ out, Hc08.disGo data base_addr max_lines pc lines fuel = some out := by
  intro fuel
  induction fuel with
  | zero =>
    intro pc lines h
    exact ⟨[], disGo_done data base_addr max_lines pc lines 0 (by omega)⟩
  | succ n ih =>
    intro pc lines h
    by_cases hpc : pc < data.length
    · by_cases hcap : Hc08.capReached max_lines lines = true
      · exact ⟨[], by simp [Hc08.disGo, hpc, hcap]⟩
      · obtain ⟨r, hr⟩ := Option.isSome_iff_exists.mp (disStep_isSome data base_addr pc hpc)
        obtain ⟨ins, pc'⟩ := r
        have hlt := disStep_lt data base_addr pc ins pc' hr
        obtain ⟨out, hout⟩ := ih pc' (lines + 1) (by omega)
        exact ⟨ins :: out, by simp [Hc08.disGo, hpc, hcap, hr, hout]⟩
    · exact ⟨[], disGo_done data base_addr max_lines pc lines _ (by omega)⟩

/-- The disassembler never fails: its fuel is always sufficient and no
read is out of bounds. -/
theorem disassemble_isSome (data : List Nat) (base_addr : Int)
    (max_lines : Option Nat) :
    ∃ out, Hc08.disassemble data base_addr max_lines = some out :=
  disGo_isSome data base_addr max_lines (data.length + 1) 0 0 (by omega)

/-- The subroutine scan always terminates normally with sufficient fuel. -/
theorem subsGo_isSome (data : List Nat) (base : Int) :
    ∀ (fuel pc : Nat), data.length ≤ pc + fuel →
      (Pdm.subsGo data base pc fuel).isSome := by
  intro fuel
  induction fuel with
  | zero =>
    intro pc h
    simp [Pdm.subsGo, show data.length ≤ pc by omega]
  | succ n ih =>
    intro pc h
    by_cases hpc : pc < data.length
    · obtain ⟨op, hop⟩ := getElem?_some hpc
      by_cases h1 : op = 0xBD ∧ pc + 1 < data.length
      · obtain ⟨t, ht⟩ := getElem?_some h1.2
        obtain ⟨l, hl⟩ := Option.isSome_iff_exists.mp (ih (pc + 2) (by omega))
        simp [Pdm.subsGo, hpc, hop, h1, ht, hl]
      · by_cases h2 : op = 0xCD ∧ pc + 2 < data.length
        · obtain ⟨hi, hhi⟩ := getElem?_some (show pc + 1 < data.length by omega)
          obtain ⟨lo, hlo⟩ := getElem?_some h2.2
          obtain ⟨l, hl⟩ := Option.isSome_iff_exists.mp (ih (pc + 3) (by omega))
          simp [Pdm.subsGo, hpc, hop, h1, h2, hhi, hlo, hl]
        · by_cases h3 : op = 0xAD ∧ pc + 1 < data.length
          · obtain ⟨r0, hr0⟩ := getElem?_some h3.2
            obtain ⟨l, hl⟩ := Option.isSome_iff_exists.mp (ih (pc + 2) (by omega))
            simp [Pdm.subsGo, hpc, hop, h1, h2, h3, hr0, hl]
          · obtain ⟨l, hl⟩ := Option.isSome_iff_exists.mp (ih (pc + 1) (by omega))
            simp [Pdm.subsGo, hpc, hop, h1, h2, h3, hl]
    · simp [Pdm.subsGo, hpc]

/-- The I/O-access scan always terminates normally with sufficient fuel. -/
theorem ioGo_isSome (data : List Nat) (base : Int) :
    ∀ (fuel pc : Nat), data.length ≤ pc + fuel →
      (Pdm.ioGo data base pc fuel).isSome := by
  intro fuel
  induction fuel with
  | zero =>
    intro pc h
    simp [Pdm.ioGo, show data.length ≤ pc by omega]
  | succ n ih =>
    intro pc h
    by_cases hpc : pc < data.length
    · obtain ⟨op, hop⟩ := getElem?_some hpc
      by_cases h1 : op = 0xB6 ∧ pc + 1 < data.length
      · obtain ⟨reg, hreg⟩ := getElem?_some h1.2
        obtain ⟨r, hr⟩ := Option.isSome_iff_exists.mp (ih (pc + 2) (by omega))
        simp [Pdm.ioGo, hpc, hop, h1, hreg, hr]
      · by_cases h2 : op = 0xB7 ∧ pc + 1 < data.length
        · obtain ⟨reg, hreg⟩ := getElem?_some h2.2
          obtain ⟨r, hr⟩ := Option.isSome_iff_exists.mp (ih (pc + 2) (by omega))
          simp [Pdm.ioGo, hpc, hop, h1, h2, hreg, hr]
        · by_cases h3 : op = 0xBE ∧ pc + 1 < data.length
          · obtain ⟨reg, hreg⟩ := getElem?_some h3.2
            obtain ⟨r, hr⟩ := Option.isSome_iff_exists.mp (ih (pc + 2) (by omega))
            simp [Pdm.ioGo, hpc, hop, h1, h2, h3, hreg, hr]
          · by_cases h4 : op = 0xBF ∧ pc + 1 < data.length
            · obtain ⟨reg, hreg⟩ := getElem?_some h4.2
              obtain ⟨r, hr⟩ := Option.isSome_iff_exists.mp (ih (pc + 2) (by omega))
              simp [Pdm.ioGo, hpc, hop, h1, h2, h3, h4, hreg, hr]
            · by_cases h5 : (0x10 ≤ op ∧ op ≤ 0x1F) ∧ pc + 1 < data.length
              · obtain ⟨reg, hreg⟩ := getElem?_some h5.2
                obtain ⟨r, hr⟩ := Option.isSome_iff_exists.mp (ih (pc + 2) (by omega))
                have e1 : op ≠ 0xB6 := fun he => h1 ⟨he, h5.2⟩
                have e2 : op ≠ 0xB7 := fun he => h2 ⟨he, h5.2⟩
                have e3 : op ≠ 0xBE := fun he => h3 ⟨he, h5.2⟩
                have e4 : op ≠ 0xBF := fun he => h4 ⟨he, h5.2⟩
                simp [Pdm.ioGo, hpc, hop, e1, e2, e3, e4, h5, hreg, hr]
              · by_cases h6 : op ≤ 0x0F ∧ pc + 2 < data.length
                · obtain ⟨reg, hreg⟩ := getElem?_some (show pc + 1 < data.length by omega)
                  obtain ⟨r, hr⟩ := Option.isSome_iff_exists.mp (ih (pc + 3) (by omega))
                  simp [Pdm.ioGo, hpc, hop, h1, h2, h3, h4, h5, h6, hreg, hr]
                · by_cases h7 : op = 0xC6 ∧ pc + 2 < data.length
                  · obtain ⟨hi, hhi⟩ := getElem?_some (show pc + 1 < data.length by omega)
                    obtain ⟨lo, hlo⟩ := getElem?_some h7.2
                    obtain ⟨r, hr⟩ := Option.isSome_iff_exists.mp (ih (pc + 3) (by omega))
                    simp [Pdm.ioGo, hpc, hop, h1, h2, h3, h4, h5, h6, h7, hhi, hlo, hr]
                  · by_cases h8 : op = 0xC7 ∧ pc + 2 < data.length
                    · obtain ⟨hi, hhi⟩ := getElem?_some (show pc + 1 < data.length by omega)
                      obtain ⟨lo, hlo⟩ := getElem?_some h8.2
                      obtain ⟨r, hr⟩ := Option.isSome_iff_exists.mp (ih (pc + 3) (by omega))
                      simp [Pdm.ioGo, hpc, hop, h1, h2, h3, h4, h5, h6, h7, h8, hhi, hlo, hr]
                    · obtain ⟨r, hr⟩ := Option.isSome_iff_exists.mp (ih (pc + 1) (by omega))
                      simp [Pdm.ioGo, hpc, hop, h1, h2, h3, h4, h5, h6, h7, h8, hr]
    · simp [Pdm.ioGo, hpc]

/-- The RAM-usage scan always terminates normally with sufficient fuel. -/
theorem ramGo_isSome (data : List Nat) :
    ∀ (fuel pc : Nat), data.length ≤ pc + fuel →
      (Pdm.ramGo data pc fuel).isSome := by
  intro fuel
  induction fuel with
  | zero =>
    intro pc h
    simp [Pdm.ramGo, show data.length ≤ pc by omega]
  | succ n ih =>
    intro pc h
    by_cases hpc : pc < data.length
    · obtain ⟨op, hop⟩ := getElem?_some hpc
      by_cases h1 : (0xC0 ≤ op ∧ op ≤ 0xCF) ∧ ¬(op = 0xCC ∨ op = 0xCD) ∧ pc + 2 < data.length
      · obtain ⟨hi, hhi⟩ := getElem?_some (show pc + 1 < data.length by omega)
        obtain ⟨lo, hlo⟩ := getElem?_some h1.2.2
        obtain ⟨r, hr⟩ := Option.isSome_iff_exists.mp (ih (pc + 3) (by omega))
        simp [Pdm.ramGo, hpc, hop, h1.1, h1.2.1, h1.2.2, hhi, hlo, hr]
      · obtain ⟨r, hr⟩ := Option.isSome_iff_exists.mp (ih (pc + 1) (by omega))
        simp only [Pdm.ramGo, hpc, if_true, hop]
        rw [if_neg (by tauto)]
        simp [hr]
    · simp [Pdm.ramGo, hpc]

/-- The loop scan always terminates normally with sufficient fuel. -/
theorem loopGo_isSome (data : List Nat) (base : Int) :
    ∀ (fuel pc : Nat), data.length ≤ pc + fuel →
      (Pdm.loopGo data base pc fuel).isSome := by
  intro fuel
  induction fuel with
  | zero =>
    intro pc h
    simp [Pdm.loopGo, show data.length ≤ pc by omega]
  | succ n ih =>
    intro pc h
    by_cases hpc : pc < data.length
    · obtain ⟨op, hop⟩ := getElem?_some hpc
      by_cases h1 : op ∈ Pdm.branchOps
      · by_cases h2 : pc + 1 < data.length
        · obtain ⟨r0, hr0⟩ := getElem?_some h2
          obtain ⟨l, hl⟩ := Option.isSome_iff_exists.mp (ih (pc + 2) (by omega))
          simp [Pdm.loopGo, hpc, hop, h1, h2, hr0, hl]
        · obtain ⟨l, hl⟩ := Option.isSome_iff_exists.mp (ih (pc + 2) (by omega))
          simp [Pdm.loopGo, hpc, hop, h1, h2, hl]
      · obtain ⟨l, hl⟩ := Option.isSome_iff_exists.mp (ih (pc + 1) (by omega))
        simp [Pdm.loopGo, hpc, hop, h1, hl]
    · simp [Pdm.loopGo, hpc]

/-- The printable-run scan terminates with a run end at or after its
start. -/
theorem runEnd_spec (data : List Nat) :
    ∀ (fuel i : Nat), data.length ≤ i + fuel →
      ∃ e, Pdm.runEnd data i fuel = some e ∧ i ≤ e := by
  intro fuel
  induction fuel with
  | zero =>
    intro i h
    exact ⟨i, by simp [Pdm.runEnd, show data.length ≤ i by omega], le_refl i⟩
  | succ n ih =>
    intro i h
    by_cases hi : i < data.length
    · obtain ⟨b, hb⟩ := getElem?_some hi
      by_cases hp : 0x20 ≤ b ∧ b ≤ 0x7E
      · obtain ⟨e, he, hie⟩ := ih (i + 1) (by omega)
        exact ⟨e, by simp [Pdm.runEnd, hi, hb, hp, he], by omega⟩
      · exact ⟨i, by simp [Pdm.runEnd, hi, hb, hp], le_refl i⟩
    · exact ⟨i, by simp [Pdm.runEnd, hi], le_refl i⟩

/-- The string scan always terminates normally with sufficient fuel. -/
theorem strGo_isSome (data : List Nat) (base : Int) (min_len : Nat) :
    ∀ (fuel i : Nat), data.length ≤ i + fuel →
      (Pdm.strGo data base min_len i fuel).isSome := by
  intro fuel
  induction fuel with
  | zero =>
    intro i h
    simp [Pdm.strGo, show data.length ≤ i by omega]
  | succ n ih =>
    intro i h
    by_cases hi : i < data.length
    · obtain ⟨b, hb⟩ := getElem?_some hi
      by_cases hp : 0x20 ≤ b ∧ b ≤ 0x7E
      · obtain ⟨e, he, hie⟩ := runEnd_spec data (data.length + 1 - i) i (by omega)
        obtain ⟨l, hl⟩ := Option.isSome_iff_exists.mp (ih (e + 1) (by omega))
        simp [Pdm.strGo, hi, hb, hp, he, hl]
      · obtain ⟨l, hl⟩ := Option.isSome_iff_exists.mp (ih (i + 1) (by omega))
        simp [Pdm.strGo, hi, hb, hp, hl]
    · simp [Pdm.strGo, hi]

/-- C9: no analysis pass — disassembly, subroutine scan, I/O-access scan,
RAM-usage scan, loop scan, string extraction — ever indexes the buffer
outside its bounds on any input: an out-of-range read is modeled as
`none`, and every pass returns `some` for every buffer, base address,
line cap and minimum string length, however the buffer contents truncate
a final instruction. -/
theorem analysis_passes_in_bounds (data : List Nat) (base : Int)
    (max_lines : Option Nat) (min_len : Nat) :
    (Hc08.disassemble data base max_lines).isSome
    ∧ (Pdm.find_subroutines data base).isSome
    ∧ (Pdm.find_io_accesses data base).isSome
    ∧ (Pdm.find_ram_usage data base).isSome
    ∧ (Pdm.analyze_main_loop data base).isSome
    ∧ (Pdm.find_strings data base min_len).isSome := by
  refine ⟨?_, ?_, ?_, ?_, ?_, ?_⟩
  · obtain ⟨o, ho⟩ := disassemble_isSome data base max_lines
    simp [ho]
  · obtain ⟨l, hl⟩ := Option.isSome_iff_exists.mp
      (subsGo_isSome data base (data.length + 1) 0 (by omega))
    simp [Pdm.find_subroutines, hl]
  · obtain ⟨r, hr⟩ := Option.isSome_iff_exists.mp
      (ioGo_isSome data base (data.length + 1) 0 (by omega))
    simp [Pdm.find_io_accesses, hr]
  · obtain ⟨r, hr⟩ := Option.isSome_iff_exists.mp
      (ramGo_isSome data (data.length + 1) 0 (by omega))
    simp [Pdm.find_ram_usage, hr]
  · obtain ⟨l, hl⟩ := Option.isSome_iff_exists.mp
      (loopGo_isSome data base (data.length + 1) 0 (by omega))
    simp [Pdm.analyze_main_loop, hl]
  · obtain ⟨l, hl⟩ := Option.isSome_iff_exists.mp
      (strGo_isSome data base min_len (data.length + 1) 0 (by omega))
    simp [Pdm.find_strings, hl]

/-- C1 (code bug witness): on the 2-byte buffer [0x9E, 0xE6] — a
0x9E-prefixed instruction whose tabulated length 3 would read past the
buffer end — the disassembler emits a single record consuming 3 bytes
instead of degrading to a 1-byte undecoded record, so the consumed-byte
total is 3 while the buffer length is 2 and the address ranges overrun
[base, base + 2). -/
theorem disassemble_9e_truncation_overrun :
    Hc08.disassemble [0x9E, 0xE6] 0x8000 none =
      some [⟨0x8000, 3, "LDA", "???", [0x9E, 0xE6]⟩]
    ∧ (((Hc08.disassemble [0x9E, 0xE6] 0x8000 none).getD []).map Hc08.Instr.size).sum = 3
    ∧ ([0x9E, 0xE6] : List Nat).length = 2 := by
  exact ⟨by decide, by decide, by decide⟩

/-- C2 (counterexample): the branch [0x20, 0xFE] at 0x8000 (displacement
−2, target 0x8000) is recorded with third component 2 — the negated
displacement — not the distance 0x8000 − 0x8000 = 0 the claim (and the
spec's worked example) states. -/
theorem analyze_main_loop_distance_counterexample :
    Pdm.analyze_main_loop [0x20, 0xFE] 0x8000 = some [(0x8000, 0x8000, 2)]
    ∧ ¬ ((2 : Int) = 0x8000 - 0x8000) := by
  exact ⟨by decide, by decide⟩

/-- C3 (counterexample): an input consisting of a lone end record — hence
zero data records — parses successfully and returns the degenerate triple
(empty memory, no start address, end 0) instead of reporting a fatal load
error. -/
theorem parse_srec_no_data_counterexample :
    Srec.parse_srec ["S9030000FC"] = some ⟨[], none, 0⟩ := by decide

/-- C4 (counterexample): the extended-mode instruction LDA 0x0000 renders
its operand as the raw hex "$0000" even though address 0 resolves to
"PORTA" in the named-register table, contradicting the claimed
named-register rendering for extended mode. -/
theorem disassemble_ext_named_counterexample :
    Hc08.disassemble [0xC6, 0x00, 0x00] 0x8000 none =
      some [⟨0x8000, 3, "LDA", "$0000", [0xC6, 0x00, 0x00]⟩]
    ∧ Hc08.get_reg_name 0 = some "PORTA"
    ∧ "$0000" ≠ "PORTA" := by
  exact ⟨by decide, by decide, by decide⟩

/-- C5 (counterexample): the store STX extended (0xCF) to RAM address
0x0040 is counted as a read — its occurrence lands in the read list, and
the write counter for 0x0040 stays 0 — contradicting the claimed
read/write split for stores. -/
theorem find_ram_usage_stx_counterexample :
    Pdm.find_ram_usage [0xCF, 0x00, 0x40] 0x8000 = some ([0x40], [])
    ∧ ([0x40] : List Nat).count 0x40 = 1
    ∧ ([] : List Nat).count 0x40 = 0 := by
  exact ⟨by decide, by decide, by decide⟩

/-- Past the end of the buffer the loop scan stops immediately, whatever
the fuel. -/
theorem loopGo_done (data : List Nat) (base : Int) (pc fuel : Nat)
    (h : data.length ≤ pc) : Pdm.loopGo data base pc fuel = some [] := by
  cases fuel with
  | zero => simp [Pdm.loopGo, h]
  | succ n => simp [Pdm.loopGo, show ¬ pc < data.length by omega]

/-- One scan iteration of the loop scan on a listed branch opcode with an
operand byte in range. -/
theorem loopGo_step (data : List Nat) (base : Int) (pc n op rel0 : Nat)
    (hpc : pc < data.length) (hop : data[pc]? = some op)
    (hbr : op ∈ Pdm.branchOps) (h1 : pc + 1 < data.length)
    (hrel : data[pc + 1]? = some rel0) :
    Pdm.loopGo data base pc (n + 1) =
      (Pdm.loopGo data base (pc + 2) n).map fun rest =>
        if pySigned rel0 < 0 then
          (base + pc, base + pc + 2 + pySigned rel0, -pySigned rel0) :: rest
        else rest := by
  simp [Pdm.loopGo, hpc, hop, hbr, h1, hrel]

/-- Every loop site the scan records satisfies the corrected tuple law:
its distance component is the negated displacement, in 1..128, and the
target is branch address + 2 − distance. -/
theorem loopGo_mem (data : List Nat) (base : Int) :
    ∀ (fuel pc : Nat) (l : List (Int × Int × Int)),
      Pdm.loopGo data base pc fuel = some l →
      ∀ a t dist, (a, t, dist) ∈ l → t = a + 2 - dist ∧ 1 ≤ dist ∧ dist ≤ 128 := by
  intro fuel
  induction fuel with
  | zero =>
    intro pc l h a t dist hmem
    simp only [Pdm.loopGo] at h
    split at h
    · simp only [Option.some.injEq] at h
      subst h
      simp at hmem
    · simp at h
  | succ n ih =>
    intro pc l h a t dist hmem
    simp only [Pdm.loopGo] at h
    split at h
    · split at h
      · simp at h
      · rename_i op hop
        split at h
        · split at h
          · split at h
            · simp at h
            · rename_i rel0 hrel
              rw [Option.map_eq_some'] at h
              obtain ⟨rest, hrest, hl⟩ := h
              by_cases hneg : pySigned rel0 < 0
              · rw [if_pos hneg] at hl
                subst hl
                rcases List.mem_cons.mp hmem with heq | hmem'
                · simp only [Prod.mk.injEq] at heq
                  obtain ⟨ha, ht, hd⟩ := heq
                  subst ha
                  subst ht
                  subst hd
                  simp only [pySigned] at hneg ⊢
                  split_ifs at hneg ⊢ <;> omega
                · exact ih (pc + 2) rest hrest a t dist hmem'
              · rw [if_neg hneg] at hl
                subst hl
                exact ih (pc + 2) rest hrest a t dist hmem
          · exact ih (pc + 2) l h a t dist hmem
        · exact ih (pc + 1) l h a t dist hmem
    · simp only [Option.some.injEq] at h
      subst h
      simp at hmem

/-- C2 (amended): the loop scan records a site exactly when the signed
displacement D of a listed branch opcode is negative (equivalently the
target is below branch address + 2), and the recorded tuple is
(A, target, −D) = (A, target, A + 2 − target) with −D in 1..128 — not
(A, target, A − target); in particular [0x20, 0xFE] at 0x8000 records
(0x8000, 0x8000, 2), with distance 2 rather than 0.  The list keeps one
entry per occurrence. -/
theorem analyze_main_loop_sites :
    (∀ (data : List Nat) (base : Int) (l : List (Int × Int × Int)),
        Pdm.analyze_main_loop data base = some l →
        ∀ a t dist, (a, t, dist) ∈ l → t = a + 2 - dist ∧ 1 ≤ dist ∧ dist ≤ 128)
    ∧ (∀ (op rel0 : Nat) (base : Int),
        op ∈ Pdm.branchOps → 127 < rel0 → rel0 ≤ 255 →
        Pdm.analyze_main_loop [op, rel0] base =
          some [(base, base + 2 + ((rel0 : Int) - 256), 256 - (rel0 : Int))])
    ∧ (∀ (op rel0 : Nat) (base : Int),
        op ∈ Pdm.branchOps → rel0 ≤ 127 →
        Pdm.analyze_main_loop [op, rel0] base = some [])
    ∧ Pdm.analyze_main_loop [0x20, 0xFE] 0x8000 = some [(0x8000, 0x8000, 2)] := by
  refine ⟨?_, ?_, ?_, by decide⟩
  · intro data base l h a t dist hmem
    exact loopGo_mem data base (data.length + 1) 0 l h a t dist hmem
  · intro op rel0 base hbr h127 h255
    have hsig : pySigned rel0 = (rel0 : Int) - 256 := by simp [pySigned, h127]
    have hneg : pySigned rel0 < 0 := by rw [hsig]; omega
    show Pdm.loopGo [op, rel0] base 0 (2 + 1) = _
    rw [loopGo_step [op, rel0] base 0 2 op rel0 (by simp) rfl hbr (by simp) rfl]
    rw [loopGo_done [op, rel0] base 2 2 (by simp)]
    rw [Option.map_some']
    rw [if_pos hneg]
    rw [hsig]
    norm_num
  · intro op rel0 base hbr h127
    have hsig : pySigned rel0 = (rel0 : Int) := by
      simp [pySigned, show ¬ 127 < rel0 by omega]
    have hneg : ¬ pySigned rel0 < 0 := by rw [hsig]; omega
    show Pdm.loopGo [op, rel0] base 0 (2 + 1) = _
    rw [loopGo_step [op, rel0] base 0 2 op rel0 (by simp) rfl hbr (by simp) rfl]
    rw [loopGo_done [op, rel0] base 2 2 (by simp)]
    rw [Option.map_some']
    rw [if_neg hneg]

/-- Past the end of the buffer the RAM scan stops immediately. -/
theorem ramGo_done (data : List Nat) (pc fuel : Nat) (h : data.length ≤ pc) :
    Pdm.ramGo data pc fuel = some ([], []) := by
  cases fuel with
  | zero => simp [Pdm.ramGo, h]
  | succ n => simp [Pdm.ramGo, show ¬ pc < data.length by omega]

/-- One scan iteration of the RAM scan on an extended-addressed opcode
other than JMP/JSR with both operand bytes in range. -/
theorem ramGo_step (data : List Nat) (pc n op hi lo : Nat)
    (hpc : pc < data.length) (hop : data[pc]? = some op)
    (hc0 : 0xC0 ≤ op) (hcf : op ≤ 0xCF) (hcc : op ≠ 0xCC) (hcd : op ≠ 0xCD)
    (h2 : pc + 2 < data.length)
    (hhi : data[pc + 1]? = some hi) (hlo : data[pc + 2]? = some lo) :
    Pdm.ramGo data pc (n + 1) =
      (Pdm.ramGo data (pc + 3) n).map fun rest =>
        if 0x0040 ≤ hi <<< 8 ||| lo ∧ hi <<< 8 ||| lo ≤ 0x083F then
          if op = 0xC7 then (rest.1, (hi <<< 8 ||| lo) :: rest.2)
          else ((hi <<< 8 ||| lo) :: rest.1, rest.2)
        else rest := by
  simp only [Pdm.ramGo, hpc, if_true, hop]
  rw [if_pos (by tauto)]
  simp [hhi, hlo]

/-- C5 (amended): in the RAM-usage pass only STA extended (0xC7)
increments the per-address write counter; every other extended-addressed
opcode in 0xC0..0xCF apart from JMP/JSR — all the loads and also STX
extended (0xCF) — increments the read counter for an operand address in
the RAM interval 0x0040..0x083F (both bounds inclusive). -/
theorem find_ram_usage_direction (op hi lo : Nat) (base : Int)
    (h1 : 0xC0 ≤ op) (h2 : op ≤ 0xCF) (h3 : op ≠ 0xCC) (h4 : op ≠ 0xCD)
    (h5 : lo ≤ 255) (h6 : 0x0040 ≤ 256 * hi + lo) (h7 : 256 * hi + lo ≤ 0x083F) :
    Pdm.find_ram_usage [op, hi, lo] base =
      some (if op = 0xC7 then ([], [256 * hi + lo]) else ([256 * hi + lo], [])) := by
  have hlor : hi <<< 8 ||| lo = 256 * hi + lo := shiftLeft8_or hi lo (by omega)
  show Pdm.ramGo [op, hi, lo] 0 (3 + 1) = _
  rw [ramGo_step [op, hi, lo] 0 3 op hi lo (by simp) rfl h1 h2 h3 h4 (by simp) rfl rfl]
  rw [ramGo_done [op, hi, lo] 3 3 (by simp)]
  rw [Option.map_some']
  rw [hlor]
  rw [if_pos ⟨h6, h7⟩]

/-- Past the end of the buffer the subroutine scan stops immediately. -/
theorem subsGo_done (data : List Nat) (base : Int) (pc fuel : Nat)
    (h : data.length ≤ pc) : Pdm.subsGo data base pc fuel = some [] := by
  cases fuel with
  | zero => simp [Pdm.subsGo, h]
  | succ n => simp [Pdm.subsGo, show ¬ pc < data.length by omega]

/-- Sortedness part of the subroutine-scan contract: whatever the scan
collects, the returned list is strictly ascending (so deduplicated). -/
theorem find_subroutines_sorted (data : List Nat) (base : Int) (l : List Int)
    (h : Pdm.find_subroutines data base = some l) : l.Sorted (· < ·) := by
  rw [Pdm.find_subroutines, Option.map_eq_some'] at h
  obtain ⟨subs, _, hl⟩ := h
  subst hl
  have hsorted : (subs.dedup.insertionSort (· ≤ ·)).Sorted (· ≤ ·) :=
    List.sorted_insertionSort (· ≤ ·) subs.dedup
  have hnodup : (subs.dedup.insertionSort (· ≤ ·)).Nodup :=
    ((List.perm_insertionSort (· ≤ ·) subs.dedup).nodup_iff).mpr (List.nodup_dedup subs)
  exact (hsorted.and hnodup).imp fun hx => lt_of_le_of_ne hx.1 hx.2

/-- C7: the subroutine scan collects call targets from exactly the three
call forms — JSR direct (0xBD) takes its operand byte verbatim, JSR
extended (0xCD) takes the big-endian 2-byte operand, BSR (0xAD) computes
address + 2 + signed displacement — and returns a deduplicated set in
ascending order (formalized: every returned list is strictly sorted, and
each single-instruction buffer yields exactly its computed target). -/
theorem find_subroutines_spec :
    (∀ (data : List Nat) (base : Int) (l : List Int),
        Pdm.find_subroutines data base = some l → l.Sorted (· < ·))
    ∧ (∀ (t : Nat) (base : Int),
        Pdm.find_subroutines [0xBD, t] base = some [(t : Int)])
    ∧ (∀ (hi lo : Nat) (base : Int), lo ≤ 255 →
        Pdm.find_subroutines [0xCD, hi, lo] base = some [((256 * hi + lo : Nat) : Int)])
    ∧ (∀ (rel0 : Nat) (base : Int), 127 < rel0 → rel0 ≤ 255 →
        Pdm.find_subroutines [0xAD, rel0] base = some [base + 2 + ((rel0 : Int) - 256)])
    ∧ (∀ (rel0 : Nat) (base : Int), rel0 ≤ 127 →
        Pdm.find_subroutines [0xAD, rel0] base = some [base + 2 + (rel0 : Int)]) := by
  refine ⟨find_subroutines_sorted, ?_, ?_, ?_, ?_⟩
  · intro t base
    rw [Pdm.find_subroutines]
    rw [show Pdm.subsGo [0xBD, t] base 0 ([0xBD, t].length + 1) =
        (Pdm.subsGo [0xBD, t] base 2 1).map ((t : Int) :: ·) by
      simp [Pdm.subsGo]]
    rw [subsGo_done [0xBD, t] base 2 1 (by simp)]
    simp
  · intro hi lo base hlo
    have hlor : hi <<< 8 ||| lo = 256 * hi + lo := shiftLeft8_or hi lo (by omega)
    rw [Pdm.find_subroutines]
    rw [show Pdm.subsGo [0xCD, hi, lo] base 0 ([0xCD, hi, lo].length + 1) =
        (Pdm.subsGo [0xCD, hi, lo] base 3 2).map ((((hi <<< 8 ||| lo : Nat)) : Int) :: ·) by
      simp [Pdm.subsGo]]
    rw [subsGo_done [0xCD, hi, lo] base 3 2 (by simp)]
    rw [hlor]
    simp
  · intro rel0 base h127 h255
    have hsig : pySigned rel0 = (rel0 : Int) - 256 := by simp [pySigned, h127]
    rw [Pdm.find_subroutines]
    rw [show Pdm.subsGo [0xAD, rel0] base 0 ([0xAD, rel0].length + 1) =
        (Pdm.subsGo [0xAD, rel0] base 2 1).map ((base + 0 + 2 + pySigned rel0) :: ·) by
      simp [Pdm.subsGo]]
    rw [subsGo_done [0xAD, rel0] base 2 1 (by simp)]
    rw [hsig]
    simp
  · intro rel0 base h127
    have hsig : pySigned rel0 = (rel0 : Int) := by
      simp [pySigned, show ¬ 127 < rel0 by omega]
    rw [Pdm.find_subroutines]
    rw [show Pdm.subsGo [0xAD, rel0] base 0 ([0xAD, rel0].length + 1) =
        (Pdm.subsGo [0xAD, rel0] base 2 1).map ((base + 0 + 2 + pySigned rel0) :: ·) by
      simp [Pdm.subsGo]]
    rw [subsGo_done [0xAD, rel0] base 2 1 (by simp)]
    rw [hsig]
    simp

/-- One decode iteration on a non-prefixed opcode with a primary-table
entry whose full length is in range. -/
theorem disStep_primary (data : List Nat) (base_addr : Int) (pc op : Nat)
    (mnem : String) (mode : Hc08.AMode) (size : Nat)
    (hop : data[pc]? = some op) (hne : op ≠ 0x9E)
    (hl : List.lookup op Hc08.HC08_OPCODES = some (mnem, mode, size))
    (hsz : pc + size ≤ data.length)
    (raw : List Nat) (opnd : String)
    (hraw : readBytes data pc size = some raw)
    (hopd : Hc08.disOperand data pc (base_addr + pc) mode size = some opnd) :
    Hc08.disStep data base_addr pc =
      some (⟨base_addr + pc, size, mnem, opnd, raw⟩, pc + size) := by
  simp [Hc08.disStep, Hc08.disStepMain, hop, hne, hl,
    show ¬ data.length < pc + size by omega, hraw, hopd]

/-- A buffer whose first decode consumes it entirely disassembles to that
single record. -/
theorem disassemble_single (data : List Nat) (base_addr : Int) (ins : Hc08.Instr)
    (hlen : 0 < data.length)
    (hstep : Hc08.disStep data base_addr 0 = some (ins, data.length)) :
    Hc08.disassemble data base_addr none = some [ins] := by
  obtain ⟨n, hn⟩ : ∃ n, data.length = n + 1 := ⟨data.length - 1, by omega⟩
  rw [Hc08.disassemble, hn]
  rw [hn] at hstep
  simp [Hc08.disGo, Hc08.capReached, hstep, hn,
    disGo_done data base_addr none (n + 1) 1 n (by omega)]

/-- C8: for a relative-mode instruction at address A with tabulated
length 2 and displacement byte D (two's-complement signed), the rendered
branch target is A + 2 + signed D; at the extremes D = 0x80 (−128) and
D = 0x7F (+127) at address 0x8000 the rendered targets are "$7F82" and
"$8081". -/
theorem disassemble_rel_target :
    (∀ (op rel0 : Nat) (base : Int) (mnem : String),
        List.lookup op Hc08.HC08_OPCODES = some (mnem, Hc08.AMode.REL, 2) →
        rel0 ≤ 255 →
        Hc08.disassemble [op, rel0] base none =
          some [⟨base, 2, mnem, "$" ++ pyIntHex 4 (base + 2 + pySigned rel0), [op, rel0]⟩])
    ∧ Hc08.disassemble [0x20, 0x80] 0x8000 none =
        some [⟨0x8000, 2, "BRA", "$7F82", [0x20, 0x80]⟩]
    ∧ Hc08.disassemble [0x20, 0x7F] 0x8000 none =
        some [⟨0x8000, 2, "BRA", "$8081", [0x20, 0x7F]⟩] := by
  refine ⟨?_, by decide, by decide⟩
  intro op rel0 base mnem hl h255
  have hne : op ≠ 0x9E := by
    intro he
    subst he
    rw [show List.lookup (0x9E : Nat) Hc08.HC08_OPCODES = none by decide] at hl
    exact Option.noConfusion hl
  have hopd : Hc08.disOperand [op, rel0] 0 (base + ((0 : Nat) : Int))
      Hc08.AMode.REL 2 = some ("$" ++ pyIntHex 4 (base + 2 + pySigned rel0)) := by
    simp [Hc08.disOperand]
  have hstep := disStep_primary [op, rel0] base 0 op mnem Hc08.AMode.REL 2 rfl hne hl
    (by simp) [op, rel0] _ rfl hopd
  have hout := disassemble_single [op, rel0] base _ (by simp) hstep
  simpa using hout

/-- C4 (amended): direct-mode operands are resolved against the named
register table — rendered "<name" when the resolver finds a name, and
"<$xx" otherwise — while extended-mode operands are always rendered as
the raw 4-digit hex address; the table is never consulted for extended
mode. -/
theorem disassemble_operand_resolution :
    (∀ (op a : Nat) (base : Int) (mnem name : String),
        List.lookup op Hc08.HC08_OPCODES = some (mnem, Hc08.AMode.DIR, 2) →
        Hc08.get_reg_name a = some name →
        Hc08.disassemble [op, a] base none =
          some [⟨base, 2, mnem, "<" ++ name, [op, a]⟩])
    ∧ (∀ (op a : Nat) (base : Int) (mnem : String),
        List.lookup op Hc08.HC08_OPCODES = some (mnem, Hc08.AMode.DIR, 2) →
        Hc08.get_reg_name a = none →
        Hc08.disassemble [op, a] base none =
          some [⟨base, 2, mnem, "<$" ++ pyHex 2 a, [op, a]⟩])
    ∧ (∀ (op hi lo : Nat) (base : Int) (mnem : String),
        List.lookup op Hc08.HC08_OPCODES = some (mnem, Hc08.AMode.EXT, 3) →
        lo ≤ 255 →
        Hc08.disassemble [op, hi, lo] base none =
          some [⟨base, 3, mnem, "$" ++ pyHex 4 (256 * hi + lo), [op, hi, lo]⟩]) := by
  refine ⟨?_, ?_, ?_⟩
  · intro op a base mnem name hl hr
    have hne : op ≠ 0x9E := by
      intro he
      subst he
      rw [show List.lookup (0x9E : Nat) Hc08.HC08_OPCODES = none by decide] at hl
      exact Option.noConfusion hl
    have hopd : Hc08.disOperand [op, a] 0 (base + ((0 : Nat) : Int))
        Hc08.AMode.DIR 2 = some ("<" ++ name) := by
      simp [Hc08.disOperand, hr]
    have hstep := disStep_primary [op, a] base 0 op mnem Hc08.AMode.DIR 2 rfl hne hl
      (by simp) [op, a] _ rfl hopd
    have hout := disassemble_single [op, a] base _ (by simp) hstep
    simpa using hout
  · intro op a base mnem hl hr
    have hne : op ≠ 0x9E := by
      intro he
      subst he
      rw [show List.lookup (0x9E : Nat) Hc08.HC08_OPCODES = none by decide] at hl
      exact Option.noConfusion hl
    have hopd : Hc08.disOperand [op, a] 0 (base + ((0 : Nat) : Int))
        Hc08.AMode.DIR 2 = some ("<$" ++ pyHex 2 a) := by
      simp [Hc08.disOperand, hr]
    have hstep := disStep_primary [op, a] base 0 op mnem Hc08.AMode.DIR 2 rfl hne hl
      (by simp) [op, a] _ rfl hopd
    have hout := disassemble_single [op, a] base _ (by simp) hstep
    simpa using hout
  · intro op hi lo base mnem hl h255
    have hne : op ≠ 0x9E := by
      intro he
      subst he
      rw [show List.lookup (0x9E : Nat) Hc08.HC08_OPCODES = none by decide] at hl
      exact Option.noConfusion hl
    have hopd : Hc08.disOperand [op, hi, lo] 0 (base + ((0 : Nat) : Int))
        Hc08.AMode.EXT 3 = some ("$" ++ pyHex 4 (256 * hi + lo)) := by
      simp [Hc08.disOperand]
      rw [shiftLeft8_or hi lo (by omega)]
    have hstep := disStep_primary [op, hi, lo] base 0 op mnem Hc08.AMode.EXT 3 rfl hne hl
      (by simp) [op, hi, lo] _ rfl hopd
    have hout := disassemble_single [op, hi, lo] base _ (by simp) hstep
    simpa using hout

/-- A zero line cap is falsy: the loop with `max_lines = some 0` computes
exactly what it computes with `max_lines = none`. -/
theorem disGo_cap_zero (data : List Nat) (base : Int) :
    ∀ (fuel pc lines : Nat),
      Hc08.disGo data base (some 0) pc lines fuel =
        Hc08.disGo data base none pc lines fuel := by
  intro fuel
  induction fuel with
  | zero => intro pc lines; rfl
  | succ n ih =>
    intro pc lines
    simp only [Hc08.disGo]
    by_cases hpc : pc < data.length
    · simp only [hpc, if_true]
      rw [show Hc08.capReached (some 0) lines = false from rfl,
        show Hc08.capReached none lines = false from rfl]
      cases hstep : Hc08.disStep data base pc with
      | none => rfl
      | some r =>
        obtain ⟨ins, pc'⟩ := r
        show (Hc08.disGo data base (some 0) pc' (lines + 1) n).map (ins :: ·) =
          (Hc08.disGo data base none pc' (lines + 1) n).map (ins :: ·)
        rw [ih pc' (lines + 1)]
    · simp [hpc]

/-- With a positive cap `m` the loop emits at most `m - lines` further
records. -/
theorem disGo_cap_bound (data : List Nat) (base : Int) (m : Nat) (hm : 1 ≤ m) :
    ∀ (fuel pc lines : Nat) (out : List Hc08.Instr),
      Hc08.disGo data base (some m) pc lines fuel = some out →
      out.length ≤ m - lines := by
  intro fuel
  induction fuel with
  | zero =>
    intro pc lines out h
    simp only [Hc08.disGo] at h
    split at h
    · simp only [Option.some.injEq] at h
      subst h
      simp
    · simp at h
  | succ n ih =>
    intro pc lines out h
    simp only [Hc08.disGo] at h
    split at h
    · split at h
      · simp only [Option.some.injEq] at h
        subst h
        simp
      · rename_i hcap
        have hlt : lines < m := by
          simp [Hc08.capReached, show m ≠ 0 by omega] at hcap
          omega
        split at h
        · simp at h
        · rename_i ins pc' heq
          rw [Option.map_eq_some'] at h
          obtain ⟨rest, hrest, hout⟩ := h
          subst hout
          have hrec := ih pc' (lines + 1) rest hrest
          simp only [List.length_cons]
          omega
    · simp only [Option.some.injEq] at h
      subst h
      simp

/-- C10: passing `max_lines = 0` to the disassembler disables the cap —
the result is identical to passing `None` and the whole buffer is
decoded — while a cap `m ≥ 1` bounds the number of emitted records by
`m`. -/
theorem disassemble_max_lines_semantics :
    (∀ (data : List Nat) (base : Int),
        Hc08.disassemble data base (some 0) = Hc08.disassemble data base none)
    ∧ (∀ (data : List Nat) (base : Int) (m : Nat) (out : List Hc08.Instr),
        1 ≤ m → Hc08.disassemble data base (some m) = some out →
        out.length ≤ m) := by
  constructor
  · intro data base
    exact disGo_cap_zero data base (data.length + 1) 0 0
  · intro data base m out hm h
    have := disGo_cap_bound data base m hm (data.length + 1) 0 0 out h
    omega

/-- Every entry of a dict insertion is an old entry or the inserted
pair. -/
theorem dictInsert_mem {k v : Nat} :
    ∀ {m : List (Nat × Nat)}, ∀ p ∈ Srec.dictInsert m k v, p ∈ m ∨ p = (k, v) := by
  intro m
  induction m with
  | nil =>
    intro p hp
    simp only [Srec.dictInsert] at hp
    right
    simpa using hp
  | cons q rest ih =>
    obtain ⟨k', v'⟩ := q
    intro p hp
    simp only [Srec.dictInsert] at hp
    by_cases hk : k' = k
    · rw [if_pos hk] at hp
      rcases List.mem_cons.mp hp with h1 | h2
      · right; exact h1
      · left; exact List.mem_cons_of_mem _ h2
    · rw [if_neg hk] at hp
      rcases List.mem_cons.mp hp with h1 | h2
      · left; rw [h1]; exact List.mem_cons_self _ _
      · rcases ih p h2 with h3 | h4
        · left; exact List.mem_cons_of_mem _ h3
        · right; exact h4

/-- Keys after a dict insertion are olds key or the inserted key. -/
theorem dictInsert_keys {k v q : Nat} {m : List (Nat × Nat)}
    (h : q ∈ (Srec.dictInsert m k v).map Prod.fst) :
    q ∈ m.map Prod.fst ∨ q = k := by
  rw [List.mem_map] at h
  obtain ⟨p, hp, hq⟩ := h
  rcases dictInsert_mem p hp with h1 | h2
  · left; exact List.mem_map.mpr ⟨p, h1, hq⟩
  · right; rw [← hq, h2]

/-- Dict insertion preserves distinctness of keys. -/
theorem dictInsert_nodup {k v : Nat} :
    ∀ {m : List (Nat × Nat)}, (m.map Prod.fst).Nodup →
      ((Srec.dictInsert m k v).map Prod.fst).Nodup := by
  intro m
  induction m with
  | nil =>
    intro _
    simp [Srec.dictInsert]
  | cons q rest ih =>
    obtain ⟨k', v'⟩ := q
    intro h
    simp only [List.map_cons, List.nodup_cons] at h
    obtain ⟨hknotin, hrest⟩ := h
    simp only [Srec.dictInsert]
    by_cases hk : k' = k
    · rw [if_pos hk]
      subst hk
      simp only [List.map_cons, List.nodup_cons]
      exact ⟨hknotin, hrest⟩
    · rw [if_neg hk]
      simp only [List.map_cons, List.nodup_cons]
      refine ⟨?_, ih hrest⟩
      intro hq
      rcases dictInsert_keys hq with h1 | h2
      · exact hknotin h1
      · exact hk h2

/-- Every entry after a payload write is an old entry or has a key inside
the written window. -/
theorem writeSeq_mem :
    ∀ (bs : List Nat) (m : List (Nat × Nat)) (a : Nat),
      ∀ p ∈ Srec.writeSeq m a bs, p ∈ m ∨ (a ≤ p.1 ∧ p.1 < a + bs.length) := by
  intro bs
  induction bs with
  | nil =>
    intro m a p hp
    left
    simpa [Srec.writeSeq] using hp
  | cons b rest ih =>
    intro m a p hp
    simp only [Srec.writeSeq] at hp
    rcases ih (Srec.dictInsert m a b) (a + 1) p hp with h1 | h2
    · rcases dictInsert_mem p h1 with h3 | h4
      · left; exact h3
      · right
        rw [h4]
        refine ⟨le_refl a, ?_⟩
        simp
    · right
      have hlen : (b :: rest).length = rest.length + 1 := rfl
      refine ⟨by omega, by omega⟩

/-- Payload writes preserve distinctness of keys. -/
theorem writeSeq_nodup :
    ∀ (bs : List Nat) (m : List (Nat × Nat)) (a : Nat),
      (m.map Prod.fst).Nodup → ((Srec.writeSeq m a bs).map Prod.fst).Nodup := by
  intro bs
  induction bs with
  | nil => intro m a h; simpa [Srec.writeSeq] using h
  | cons b rest ih =>
    intro m a h
    simp only [Srec.writeSeq]
    exact ih _ _ (dictInsert_nodup h)

/-- A data-record update preserves the loader invariant: distinct keys,
and every key bracketed between the tracked start (inclusive) and end
(exclusive). -/
theorem applyData_inv (st : Srec.LoadState) (address : Nat) (dat : List Nat)
    (hnd : (st.memory.map Prod.fst).Nodup)
    (hinv : ∀ p ∈ st.memory,
      ∃ s0, st.start_addr = some s0 ∧ s0 ≤ p.1 ∧ p.1 < st.end_addr) :
    ((Srec.applyData st address dat).memory.map Prod.fst).Nodup
    ∧ ∀ p ∈ (Srec.applyData st address dat).memory,
        ∃ s0, (Srec.applyData st address dat).start_addr = some s0 ∧
          s0 ≤ p.1 ∧ p.1 < (Srec.applyData st address dat).end_addr := by
  constructor
  · exact writeSeq_nodup dat st.memory address hnd
  · intro p hp
    rcases writeSeq_mem dat st.memory address p hp with hold | hnew
    · obtain ⟨s0, hs0, hle, hlt⟩ := hinv p hold
      by_cases ha : address < s0
      · exact ⟨address, by simp [Srec.applyData, hs0, ha], by omega,
          by simp only [Srec.applyData]; split_ifs <;> omega⟩
      · exact ⟨s0, by simp [Srec.applyData, hs0, ha], by omega,
          by simp only [Srec.applyData]; split_ifs <;> omega⟩
    · cases hst : st.start_addr with
      | none =>
        exact ⟨address, by simp [Srec.applyData, hst], by omega,
          by simp only [Srec.applyData]; split_ifs <;> omega⟩
      | some s0 =>
        by_cases ha : address < s0
        · exact ⟨address, by simp [Srec.applyData, hst, ha], by omega,
            by simp only [Srec.applyData]; split_ifs <;> omega⟩
        · exact ⟨s0, by simp [Srec.applyData, hst, ha], by omega,
            by simp only [Srec.applyData]; split_ifs <;> omega⟩

/-- A processed line either leaves the state unchanged, or is a data
record (type 1 or 2) and performs exactly one `applyData` update. -/
theorem processLine_shape (st st' : Srec.LoadState) (line : String)
    (h : Srec.processLine st line = some st') :
    st' = st ∨ (Srec.isDataRecord line = true
      ∧ ∃ address dat, st' = Srec.applyData st address dat) := by
  simp only [Srec.processLine] at h
  split at h
  · left
    simp only [Option.some.injEq] at h
    exact h.symm
  · rename_i hempty
    split at h
    · left
      simp only [Option.some.injEq] at h
      exact h.symm
    · rename_i hhead
      split at h
      · simp at h
      · rename_i rt hrt
        have hS : (Srec.pyStrip line.data).head? = some 'S' := not_not.mp hhead
        split at h
        · -- record type '0'
          split at h
          · simp at h
          · split at h
            · simp at h
            · left
              simp only [Option.some.injEq] at h
              exact h.symm
        · -- record type '1'
          right
          constructor
          · cases hs : Srec.pyStrip line.data with
            | nil => rw [hs] at hempty; simp at hempty
            | cons c tail =>
              rw [hs] at hS hrt
              simp only [List.head?_cons, Option.some.injEq] at hS
              subst hS
              cases tail with
              | nil => simp at hrt
              | cons d t =>
                simp only [List.getElem?_cons_succ, List.getElem?_cons_zero,
                  Option.some.injEq] at hrt
                subst hrt
                simp [Srec.isDataRecord, hs]
          · split at h
            · simp at h
            · split at h
              · simp at h
              · split at h
                · simp at h
                · simp only [Option.some.injEq] at h
                  exact ⟨_, _, h.symm⟩
        · -- record type '2'
          right
          constructor
          · cases hs : Srec.pyStrip line.data with
            | nil => rw [hs] at hempty; simp at hempty
            | cons c tail =>
              rw [hs] at hS hrt
              simp only [List.head?_cons, Option.some.injEq] at hS
              subst hS
              cases tail with
              | nil => simp at hrt
              | cons d t =>
                simp only [List.getElem?_cons_succ, List.getElem?_cons_zero,
                  Option.some.injEq] at hrt
                subst hrt
                simp [Srec.isDataRecord, hs]
          · split at h
            · simp at h
            · split at h
              · simp at h
              · split at h
                · simp at h
                · simp only [Option.some.injEq] at h
                  exact ⟨_, _, h.symm⟩
        · -- record type '9'
          split at h
          · simp at h
          · left
            simp only [Option.some.injEq] at h
            exact h.symm
        · -- record type '8'
          split at h
          · simp at h
          · left
            simp only [Option.some.injEq] at h
            exact h.symm
        · -- other record types
          left
          simp only [Option.some.injEq] at h
          exact h.symm

/-- A non-data line leaves the loader state unchanged. -/
theorem processLine_no_data (st st' : Srec.LoadState) (line : String)
    (hnd : Srec.isDataRecord line = false)
    (h : Srec.processLine st line = some st') : st' = st := by
  rcases processLine_shape st st' line h with heq | ⟨hdata, _⟩
  · exact heq
  · rw [hnd] at hdata
    exact absurd hdata (by simp)

/-- A processed line preserves the loader invariant. -/
theorem processLine_inv (st st' : Srec.LoadState) (line : String)
    (h : Srec.processLine st line = some st')
    (hnd : (st.memory.map Prod.fst).Nodup)
    (hinv : ∀ p ∈ st.memory,
      ∃ s0, st.start_addr = some s0 ∧ s0 ≤ p.1 ∧ p.1 < st.end_addr) :
    (st'.memory.map Prod.fst).Nodup
    ∧ ∀ p ∈ st'.memory,
        ∃ s0, st'.start_addr = some s0 ∧ s0 ≤ p.1 ∧ p.1 < st'.end_addr := by
  rcases processLine_shape st st' line h with heq | ⟨_, address, dat, heq⟩
  · subst heq; exact ⟨hnd, hinv⟩
  · subst heq; exact applyData_inv st address dat hnd hinv

/-- The line loop preserves the loader invariant. -/
theorem parseLines_inv :
    ∀ (lines : List String) (st st' : Srec.LoadState),
      Srec.parseLines st lines = some st' →
      (st.memory.map Prod.fst).Nodup →
      (∀ p ∈ st.memory, ∃ s0, st.start_addr = some s0 ∧ s0 ≤ p.1 ∧ p.1 < st.end_addr) →
      (st'.memory.map Prod.fst).Nodup
      ∧ ∀ p ∈ st'.memory,
          ∃ s0, st'.start_addr = some s0 ∧ s0 ≤ p.1 ∧ p.1 < st'.end_addr := by
  intro lines
  induction lines with
  | nil =>
    intro st st' h h1 h2
    simp only [Srec.parseLines, Option.some.injEq] at h
    subst h
    exact ⟨h1, h2⟩
  | cons l rest ih =>
    intro st st' h h1 h2
    simp only [Srec.parseLines] at h
    split at h
    · simp at h
    · rename_i st1 heq
      obtain ⟨h1', h2'⟩ := processLine_inv st st1 l heq h1 h2
      exact ih st1 st' h h1' h2'

/-- With no data-record line the loop returns its initial state. -/
theorem parseLines_no_data :
    ∀ (lines : List String) (st st' : Srec.LoadState),
      (∀ l ∈ lines, Srec.isDataRecord l = false) →
      Srec.parseLines st lines = some st' → st' = st := by
  intro lines
  induction lines with
  | nil =>
    intro st st' _ h
    simp only [Srec.parseLines, Option.some.injEq] at h
    exact h.symm
  | cons l rest ih =>
    intro st st' hnd h
    simp only [Srec.parseLines] at h
    split at h
    · simp at h
    · rename_i st1 heq
      have h1 : st1 = st :=
        processLine_no_data st st1 l (hnd l (List.mem_cons_self _ _)) heq
      rw [h1] at h
      exact ih st st' (fun l' hl' => hnd l' (List.mem_cons_of_mem _ hl')) h

/-- C3 (amended): when the parse completes without an exception and zero
data records (types 1 and 2) were read, the loader does not report an
error: it returns the degenerate initial triple — empty memory map, no
start address, end address 0 — and any failure surfaces only later when a
caller uses the missing start address. -/
theorem parse_srec_no_data_records (lines : List String)
    (hnd : ∀ l ∈ lines, Srec.isDataRecord l = false) (st : Srec.LoadState)
    (h : Srec.parse_srec lines = some st) :
    st.memory = [] ∧ st.start_addr = none ∧ st.end_addr = 0 := by
  have heq : st = ⟨[], none, 0⟩ := parseLines_no_data lines ⟨[], none, 0⟩ st hnd h
  rw [heq]
  exact ⟨rfl, rfl, rfl⟩

/-- The buffer write loop never changes the buffer length. -/
theorem writeMem_length :
    ∀ (entries : List (Nat × Nat)) (buf : List Nat) (s sz : Nat),
      (Srec.writeMem s sz buf entries).length = buf.length := by
  intro entries
  induction entries with
  | nil => intro buf s sz; simp [Srec.writeMem]
  | cons p rest ih =>
    obtain ⟨addr, byte⟩ := p
    intro buf s sz
    simp only [Srec.writeMem]
    split
    · rw [ih, List.length_set]
    · exact ih buf s sz

/-- A buffer position no entry targets keeps its previous content. -/
theorem writeMem_not_written :
    ∀ (entries : List (Nat × Nat)) (buf : List Nat) (s sz j : Nat),
      (∀ p ∈ entries, p.1 ≠ s + j) →
      (Srec.writeMem s sz buf entries)[j]? = buf[j]? := by
  intro entries
  induction entries with
  | nil => intro buf s sz j _; simp [Srec.writeMem]
  | cons p rest ih =>
    obtain ⟨addr, byte⟩ := p
    intro buf s sz j hne
    simp only [Srec.writeMem]
    split
    · rename_i hguard
      rw [ih _ s sz j (fun p hp => hne p (List.mem_cons_of_mem _ hp))]
      apply List.getElem?_set_ne
      have haddr : addr ≠ s + j := hne (addr, byte) (List.mem_cons_self _ _)
      omega
    · exact ih buf s sz j (fun p hp => hne p (List.mem_cons_of_mem _ hp))

/-- Under distinct keys, the buffer position an in-window entry targets
ends up holding that entry's byte. -/
theorem writeMem_written :
    ∀ (entries : List (Nat × Nat)) (buf : List Nat) (s sz addr b : Nat),
      ((entries.map Prod.fst).Nodup) → (addr, b) ∈ entries →
      s ≤ addr → addr - s < sz → buf.length = sz →
      (Srec.writeMem s sz buf entries)[addr - s]? = some b := by
  intro entries
  induction entries with
  | nil => intro buf s sz addr b _ hmem; simp at hmem
  | cons p rest ih =>
    obtain ⟨a', b'⟩ := p
    intro buf s sz addr b hnd hmem hs hlt hlen
    simp only [List.map_cons, List.nodup_cons] at hnd
    obtain ⟨hknotin, hndrest⟩ := hnd
    rcases List.mem_cons.mp hmem with heq | hm
    · simp only [Prod.mk.injEq] at heq
      obtain ⟨ha, hb⟩ := heq
      subst ha
      subst hb
      simp only [Srec.writeMem]
      rw [if_pos (by constructor <;> omega)]
      rw [writeMem_not_written rest _ s sz (addr - s) ?hne]
      · have htn : (((addr : Int)) - s).toNat = addr - s := by omega
        rw [htn]
        exact List.getElem?_set_eq_of_lt b (by rw [hlen]; omega)
      · intro p hp hcontra
        have hpa : p.1 = addr := by omega
        exact hknotin (List.mem_map.mpr ⟨p, hp, hpa⟩)
    · simp only [Srec.writeMem]
      split
      · exact ih _ s sz addr b hndrest hm hs hlt (by rw [List.length_set]; exact hlen)
      · exact ih buf s sz addr b hndrest hm hs hlt hlen

/-- C6: loading then materializing is a faithful round-trip.  For a parse
that yields a start address and a materialization that succeeds: the
dense buffer has exactly end − start bytes; every address the data
records wrote reads back as the byte the sparse map holds for it, at
offset address − start; and every in-range address never written reads
back as the erased-flash sentinel 0xFF. -/
theorem memory_image_roundtrip (lines : List String) (mem : List (Nat × Nat))
    (s e : Nat) (buf : List Nat)
    (hparse : Srec.parse_srec lines = some ⟨mem, some s, e⟩)
    (hsave : Srec.save_binary mem s e = some buf) :
    buf.length = e - s
    ∧ (∀ a b, List.lookup a mem = some b → buf[a - s]? = some b)
    ∧ (∀ a, s ≤ a → a < e → List.lookup a mem = none → buf[a - s]? = some 0xFF) := by
  obtain ⟨hnd, hmem⟩ := parseLines_inv lines ⟨[], none, 0⟩ ⟨mem, some s, e⟩ hparse
    (by simp) (by simp)
  simp only at hnd hmem
  simp only [Srec.save_binary] at hsave
  split at hsave
  · simp at hsave
  · rename_i hes
    simp only [Option.some.injEq] at hsave
    subst hsave
    refine ⟨?_, ?_, ?_⟩
    · rw [writeMem_length, List.length_replicate]
    · intro a b hl
      have hab := lookup_mem hl
      obtain ⟨s0, hs0, hle, hlt⟩ := hmem (a, b) hab
      simp only [Option.some.injEq] at hs0
      exact writeMem_written mem (List.replicate (e - s) 0xFF) s (e - s) a b hnd hab
        (by omega) (by omega) (by simp)
    · intro a hsa hae hl
      rw [writeMem_not_written mem _ s (e - s) (a - s) ?hne]
      · rw [List.getElem?_replicate]
        simp [show a - s < e - s by omega]
      · intro p hp hcontra
        have hpa : p.1 = a := by omega
        have : (a, p.2) ∈ mem := by
          rw [← hpa]
          exact hp
        exact lookup_none_not_mem hl this

/-- Concrete instance of the loop-site law: the branch [0x20, 0xFE] at
base 0x8000 records exactly one site. -/
theorem analyze_main_loop_sites_witness :
    Pdm.analyze_main_loop [0x20, 0xFE] 0x8000 =
      some [((0x8000 : Int), (0x8000 : Int) + 2 + (((0xFE : Nat) : Int) - 256),
        256 - ((0xFE : Nat) : Int))] :=
  analyze_main_loop_sites.2.1 0x20 0xFE 0x8000 (by decide) (by decide) (by decide)

/-- Concrete instance of the no-data-record law, at a file holding only a
termination record. -/
theorem parse_srec_no_data_records_witness :
    (Srec.LoadState.mk [] none 0).memory = []
    ∧ (Srec.LoadState.mk [] none 0).start_addr = none
    ∧ (Srec.LoadState.mk [] none 0).end_addr = 0 :=
  parse_srec_no_data_records ["S9030000FC"] (by decide) ⟨[], none, 0⟩ (by decide)

set_option maxRecDepth 8000 in
/-- Concrete instance of operand resolution: direct-mode LDA at the named
register PORTA renders the register name. -/
theorem disassemble_operand_resolution_witness :
    Hc08.disassemble [0xB6, 0x00] 0x8000 none =
      some [⟨0x8000, 2, "LDA", "<" ++ "PORTA", [0xB6, 0x00]⟩] :=
  disassemble_operand_resolution.1 0xB6 0x00 0x8000 "LDA" "PORTA" (by decide) (by decide)

/-- Concrete instance of the RAM-direction law at the store opcode 0xC7. -/
theorem find_ram_usage_direction_witness :
    Pdm.find_ram_usage [0xC7, 0x00, 0x40] 0x8000 =
      some (if (0xC7 : Nat) = 0xC7 then ([], [256 * 0x00 + 0x40])
        else ([256 * 0x00 + 0x40], [])) :=
  find_ram_usage_direction 0xC7 0x00 0x40 0x8000 (by decide) (by decide) (by decide)
    (by decide) (by decide) (by decide) (by decide)

/-- Concrete instance of the round-trip law on a one-record image: the
dense buffer has end − start bytes, and a written address reads back. -/
theorem memory_image_roundtrip_witness :
    ([0xAA, 0xBB] : List Nat).length = 0x102 - 0x100
    ∧ ([0xAA, 0xBB] : List Nat)[0x100 - 0x100]? = some 0xAA :=
  ⟨(memory_image_roundtrip ["S1050100AABBxx"] [(0x100, 0xAA), (0x101, 0xBB)]
      0x100 0x102 [0xAA, 0xBB] (by decide) (by decide)).1,
   (memory_image_roundtrip ["S1050100AABBxx"] [(0x100, 0xAA), (0x101, 0xBB)]
      0x100 0x102 [0xAA, 0xBB] (by decide) (by decide)).2.1 0x100 0xAA (by decide)⟩

/-- Concrete instance of the call-target law at the extended form. -/
theorem find_subroutines_spec_witness :
    Pdm.find_subroutines [0xCD, 0x91, 0x23] 0x8000 =
      some [(((256 * 0x91 + 0x23 : Nat)) : Int)] :=
  find_subroutines_spec.2.2.1 0x91 0x23 0x8000 (by decide)

set_option maxRecDepth 8000 in
/-- Concrete instance of the branch-target law at BRA with a positive
displacement. -/
theorem disassemble_rel_target_witness :
    Hc08.disassemble [0x20, 0x10] 0x8000 none =
      some [⟨0x8000, 2, "BRA", "$" ++ pyIntHex 4 (0x8000 + 2 + pySigned 0x10),
        [0x20, 0x10]⟩] :=
  disassemble_rel_target.1 0x20 0x10 0x8000 "BRA" (by decide) (by decide)

/-- Concrete instance of the line-cap law: capped at one line on a
two-instruction buffer, the output holds at most one record. -/
theorem disassemble_max_lines_semantics_witness :
    ([(⟨0, 1, "NOP", "", [0x9D]⟩ : Hc08.Instr)]).length ≤ 1 :=
  disassemble_max_lines_semantics.2 [0x9D, 0x9D] 0 1 [⟨0, 1, "NOP", "", [0x9D]⟩]
    (by decide) (by decide)
